import Mathlib

/-!
Shallow embedding of the `cloudflare-ws-gameserver` room core
(`src/room.ts`, `src/rate-limit.ts`, `src/protocol.ts`), together with
theorems settling the specification claims about it.

JavaScript numbers are modelled as `JSNum` (either NaN or an exact
rational); machine sends and closes are recorded as explicit `Act`
values; the two registry `Map`s of `GameRoom` are association lists with
JavaScript `Map` semantics (insert-or-replace-in-place, erase, first
match lookup).
-/

/-- A JavaScript number: either NaN or an exact rational value.
(Infinities never arise on the modelled paths and are omitted.) -/
inductive JSNum where
  | nan : JSNum
  | num : ℚ → JSNum
deriving DecidableEq, Repr

/-- Model of the JavaScript expression `Math.max(1, x)`: NaN-propagating. -/
def jsMax1 : JSNum → JSNum
  | JSNum.nan => JSNum.nan
  | JSNum.num q => JSNum.num (max 1 q)

/-- Model of the JavaScript builtin `Math.floor`: NaN-propagating. -/
def jsFloor : JSNum → JSNum
  | JSNum.nan => JSNum.nan
  | JSNum.num q => JSNum.num (Rat.floor q)

/-- Model of the JavaScript comparison `a >= b`: false whenever either
operand is NaN. -/
def jsGe : JSNum → JSNum → Bool
  | JSNum.nan, _ => false
  | _, JSNum.nan => false
  | JSNum.num a, JSNum.num b => decide (b ≤ a)

/-- Model of the JavaScript strict inequality `a !== b` on numbers:
`NaN !== x` is true for every x, including NaN itself. -/
def jsStrictNe : JSNum → JSNum → Bool
  | JSNum.nan, _ => true
  | _, JSNum.nan => true
  | JSNum.num a, JSNum.num b => decide (a ≠ b)

/-- Numeric value of a list of decimal digit characters. -/
def decimalValue (cs : List Char) : ℕ :=
  cs.foldl (fun n c => n * 10 + (c.toNat - 48)) 0

/-- Drop whitespace from both ends of a character list (the trimming the
JavaScript builtins `Number` and `String.prototype.trim` perform). -/
def trimChars (cs : List Char) : List Char :=
  ((cs.dropWhile Char.isWhitespace).reverse.dropWhile Char.isWhitespace).reverse

/-- Model of `String.prototype.trim`. -/
def jsTrim (s : String) : String :=
  String.mk (trimChars s.data)

/-- Model of `String.prototype.toLowerCase` (ASCII fragment). -/
def jsToLower (s : String) : String :=
  String.mk (s.data.map Char.toLower)

/-- Split a character list at every occurrence of the separator
(the JavaScript `String.prototype.split` with a one-character separator). -/
def charSplitOn (sep : Char) : List Char → List (List Char)
  | [] => [[]]
  | c :: rest =>
    let r := charSplitOn sep rest
    if c = sep then [] :: r
    else
      match r with
      | [] => [[c]]
      | g :: gs => (c :: g) :: gs

/-- Model of `String.prototype.split` with a one-character separator. -/
def jsSplit (s : String) (sep : Char) : List String :=
  (charSplitOn sep s.data).map String.mk

/-- Model of the JavaScript builtin `Number(string)` on the fragment the
configuration surface uses: a trimmed empty string is 0, strings of
decimal digits (with at most one decimal point) are their decimal value,
and everything else is NaN.  (The full builtin also accepts signs,
exponents, hex and `Infinity`; those never appear in this repository's
configuration values.) -/
def jsStringToNumber (s : String) : JSNum :=
  let t := trimChars s.data
  if t = [] then JSNum.num 0
  else
    match charSplitOn '.' t with
    | [w] =>
      if w ≠ [] ∧ w.all Char.isDigit then JSNum.num (decimalValue w)
      else JSNum.nan
    | [w, f] =>
      if (w ≠ [] ∨ f ≠ []) ∧ w.all Char.isDigit ∧ f.all Char.isDigit then
        JSNum.num ((decimalValue w : ℚ) + (decimalValue f : ℚ) / (10 ^ f.length))
      else JSNum.nan
    | _ => JSNum.nan

/-- Model of `Number(maybeString ?? default)` used by the `GameRoom`
constructor for its two numeric environment variables. -/
def jsEnvNumber (o : Option String) (dflt : ℚ) : JSNum :=
  match o with
  | none => JSNum.num dflt
  | some s => jsStringToNumber s

/-- Structure `RateLimiter` from `src/rate-limit.ts`: the retained accepted-event
timestamps (front = oldest) and the configured capacity.  The window
length is fixed at 1000 ms. -/
structure RateLimiter where
  timestamps : List ℤ
  maxMessages : JSNum
deriving DecidableEq, Repr

/-- The `RateLimiter` constructor:
`this.maxMessages = Math.max(1, Math.floor(maxMessagesPerSecond))` with an
initially empty timestamp list. -/
def RateLimiter.create (maxMessagesPerSecond : JSNum) : RateLimiter :=
  { timestamps := [], maxMessages := jsMax1 (jsFloor maxMessagesPerSecond) }

/-- The eviction loop of `RateLimiter.allow`:
`while (timestamps.length > 0 && timestamps[0] < cutoff) timestamps.shift()`. -/
def evictOld (cutoff : ℤ) : List ℤ → List ℤ
  | [] => []
  | t :: rest => if t < cutoff then evictOld cutoff rest else t :: rest

/-- Method `RateLimiter.allow(now)` from `src/rate-limit.ts`: evict timestamps
older than `now - 1000` from the front, refuse (recording nothing beyond
the eviction) when the remaining count is `>=` capacity, otherwise append
`now` and accept.  Returns the boolean result and the updated limiter. -/
def RateLimiter.allow (rl : RateLimiter) (now : ℤ) : Bool × RateLimiter :=
  let cutoff := now - 1000
  let ts := evictOld cutoff rl.timestamps
  if jsGe (JSNum.num (ts.length : ℚ)) rl.maxMessages then
    (false, { rl with timestamps := ts })
  else
    (true, { rl with timestamps := ts ++ [now] })

/-- Run a limiter over a list of call instants, collecting each call's
boolean result (scenario harness for the claims' concrete examples). -/
def allowResults (rl : RateLimiter) (calls : List ℤ) : List Bool :=
  (calls.foldl (fun acc t =>
    let r := acc.2.allow t
    (acc.1 ++ [r.1], r.2)) (([] : List Bool), rl)).1

/-- Final limiter state after a list of calls to `allow`. -/
def runAllow (rl : RateLimiter) (calls : List ℤ) : RateLimiter :=
  calls.foldl (fun r t => (r.allow t).2) rl

theorem evictOld_sublist (cutoff : ℤ) (l : List ℤ) : (evictOld cutoff l).Sublist l := by
  induction l with
  | nil => simp [evictOld]
  | cons t rest ih =>
    simp only [evictOld]
    by_cases h : t < cutoff
    · simp only [h, if_true]
      exact ih.trans (List.sublist_cons_self t rest)
    · simp [h]

theorem evictOld_eq_dropWhile (cutoff : ℤ) (l : List ℤ) :
    evictOld cutoff l = l.dropWhile (fun t => decide (t < cutoff)) := by
  induction l with
  | nil => rfl
  | cons t rest ih =>
    simp only [evictOld, List.dropWhile]
    by_cases h : t < cutoff
    · simp [h, ih]
    · simp [h]

/-- A decoded JavaScript value as produced by the codec boundary
(`decodeMessage` yields `unknown`: null on failure, otherwise any
msgpack/JSON value). -/
inductive JSValue where
  | null : JSValue
  | bool : Bool → JSValue
  | num : JSNum → JSValue
  | str : String → JSValue
  | arr : List JSValue → JSValue
  | obj : List (String × JSValue) → JSValue

/-- Predicate `isObject` from `src/protocol.ts`:
`typeof value === "object" && value !== null` (arrays count as objects). -/
def isObject : JSValue → Bool
  | JSValue.arr _ => true
  | JSValue.obj _ => true
  | _ => false

/-- The JavaScript builtin `Array.isArray`. -/
def isArray : JSValue → Bool
  | JSValue.arr _ => true
  | _ => false

/-- Property access `value.field` on a decoded value: `none` models
JavaScript `undefined` (missing property or non-object receiver). -/
def JSValue.getField : JSValue → String → Option JSValue
  | JSValue.obj fields, k =>
    (fields.find? (fun e => e.1 = k)).map (fun e => e.2)
  | _, _ => none

/-- Constant `PROTOCOL_VERSION` from `src/protocol.ts`. -/
def PROTOCOL_VERSION : ℕ := 1

/-- Identities assigned to connections (`PlayerId` in `src/protocol.ts`);
`crypto.randomUUID()` strings in the implementation. -/
abbrev PlayerId := String

/-- Opaque connection handles (the `WebSocket` objects); modelled as
numeric tokens compared by identity, as JavaScript compares the objects. -/
abbrev WS := ℕ

/-- Type `ServerMessage` from `src/protocol.ts`. -/
inductive ServerMessage where
  | welcome : ℕ → PlayerId → List PlayerId → ServerMessage
  | peer_joined : PlayerId → ServerMessage
  | peer_left : PlayerId → ServerMessage
  | relay : PlayerId → JSValue → ServerMessage
  | pong : String → ℤ → ServerMessage
  | error : String → String → ServerMessage

/-- An observable outbound effect of the room: a `send` on a WebSocket or
an active `close` with a code and reason. -/
inductive Act where
  | send : WS → ServerMessage → Act
  | close : WS → ℕ → String → Act

/-- The connection an action is directed at. -/
def Act.target : Act → WS
  | Act.send ws _ => ws
  | Act.close ws _ _ => ws

/-- Whether an action delivers a relay envelope. -/
def Act.isRelay : Act → Bool
  | Act.send _ (ServerMessage.relay _ _) => true
  | _ => false

/-- Rendering of a JavaScript number inside a template literal (integral
fragment; the claims never inspect these strings). -/
def jsNumToString : JSNum → String
  | JSNum.nan => "NaN"
  | JSNum.num q => if q.den = 1 then toString q.num else toString q

/-- The `BAD_PROTOCOL` error text built in `webSocketMessage`. -/
def protocolMismatchMessage (clientVersion : JSNum) : String :=
  "Protocol mismatch. Server=" ++ toString PROTOCOL_VERSION ++ ", Client=" ++
    jsNumToString clientVersion

/-- Lookup in a JavaScript `Map` rendered as an association list
(first entry with the key). -/
def mget {κ β : Type} [DecidableEq κ] : List (κ × β) → κ → Option β
  | [], _ => none
  | e :: rest, k => if e.1 = k then some e.2 else mget rest k

/-- JavaScript `Map.set`: replace the value of an existing key in place, otherwise
append a new entry at the end (JavaScript `Map` insertion order). -/
def mset {κ β : Type} [DecidableEq κ] : List (κ × β) → κ → β → List (κ × β)
  | [], k, v => [(k, v)]
  | e :: rest, k, v => if e.1 = k then (k, v) :: rest else e :: mset rest k v

/-- JavaScript `Map.delete`: remove the entry with the key, if present. -/
def mdel {κ β : Type} [DecidableEq κ] : List (κ × β) → κ → List (κ × β)
  | [], _ => []
  | e :: rest, k => if e.1 = k then rest else e :: mdel rest k

/-- The keys of an association-list map, in insertion order. -/
def mkeys {κ β : Type} (m : List (κ × β)) : List κ :=
  m.map (fun e => e.1)

/-- Structure `PlayerConnection` from `src/room.ts`. -/
structure PlayerConnection where
  playerId : PlayerId
  webSocket : WS
  rateLimiter : RateLimiter
  joinedAt : ℤ
deriving DecidableEq, Repr

/-- The environment bindings the `GameRoom` constructor reads
(`Env` in `src/room.ts`; every field optional). -/
structure EnvConfig where
  ALLOWED_ORIGINS : Option String
  MAX_MESSAGES_PER_SECOND : Option String
  MAX_PLAYERS_PER_ROOM : Option String

/-- The mutable state of one `GameRoom` Durable Object: the two registry
maps and the parsed policy configuration. -/
structure RoomState where
  connections : List (PlayerId × PlayerConnection)
  wsToPlayer : List (WS × PlayerId)
  allowedOrigins : List String
  maxMessagesPerSecond : JSNum
  maxPlayersPerRoom : JSNum
deriving DecidableEq

namespace GameRoom

/-- The skip test inside `broadcast`:
`if (excludePlayerId && conn.playerId === excludePlayerId) continue`.
JavaScript truthiness: a null or empty-string exclusion excludes nobody. -/
def broadcastSkips (excludePlayerId : Option PlayerId) (pid : PlayerId) : Bool :=
  match excludePlayerId with
  | none => false
  | some p => decide (p ≠ "") && decide (pid = p)

/-- Method `GameRoom.broadcast` from `src/room.ts`: send the message to every
registered connection except the excluded identity.  Pure rendering as the
list of send actions, in registry insertion order. -/
def broadcastActs (st : RoomState) (excludePlayerId : Option PlayerId)
    (message : ServerMessage) : List Act :=
  (st.connections.filter (fun e => ! broadcastSkips excludePlayerId e.2.playerId)).map
    (fun e => Act.send e.2.webSocket message)

/-- The origin check in `fetch`:
`origin && !this.allowedOrigins.has(origin)` (a null or empty origin
header is falsy and passes). -/
def originRejected (allowed : List String) (origin : Option String) : Bool :=
  match origin with
  | none => false
  | some o => decide (o ≠ "") && decide (o ∉ allowed)

/-- Method `GameRoom.fetch` from `src/room.ts`, with the two external inputs made
explicit: the identity `crypto.randomUUID()` produced (`newPid`) and the
server half of the fresh `WebSocketPair` (`serverWs`).  Returns the new
state, the outbound actions, and the HTTP status of the response
(426, 403, 503, or 101 on upgrade). -/
def fetch (st : RoomState) (upgradeHeader : Option String) (origin : Option String)
    (newPid : PlayerId) (serverWs : WS) (now : ℤ) : RoomState × List Act × ℕ :=
  match upgradeHeader with
  | none => (st, [], 426)
  | some h =>
    if h = "" ∨ jsToLower h ≠ "websocket" then (st, [], 426)
    else if originRejected st.allowedOrigins origin then (st, [], 403)
    else if jsGe (JSNum.num (st.connections.length : ℚ)) st.maxPlayersPerRoom then
      (st, [], 503)
    else
      let conn : PlayerConnection :=
        { playerId := newPid, webSocket := serverWs,
          rateLimiter := RateLimiter.create st.maxMessagesPerSecond, joinedAt := now }
      let peers := st.connections.map (fun e => e.2.playerId)
      let st' : RoomState :=
        { st with connections := mset st.connections newPid conn,
                  wsToPlayer := mset st.wsToPlayer serverWs newPid }
      (st',
       Act.send serverWs (ServerMessage.welcome PROTOCOL_VERSION newPid peers) ::
         broadcastActs st' (some newPid) (ServerMessage.peer_joined newPid),
       101)

/-- Method `GameRoom.webSocketMessage` from `src/room.ts`, taking the decoded
value of the frame (the codec boundary) and the current time as inputs. -/
def webSocketMessage (st : RoomState) (ws : WS) (decoded : JSValue) (now : ℤ) :
    RoomState × List Act :=
  match mget st.wsToPlayer ws with
  | none => (st, [])
  | some playerId =>
    match mget st.connections playerId with
    | none => (st, [])
    | some conn =>
      let res := conn.rateLimiter.allow now
      let conn' : PlayerConnection := { conn with rateLimiter := res.2 }
      let st' : RoomState := { st with connections := mset st.connections playerId conn' }
      if res.1 = false then
        (st', [Act.send ws (ServerMessage.error "RATE_LIMITED" "Rate limited")])
      else if isObject decoded = false ∨ isArray decoded = true then
        (st', [Act.send ws (ServerMessage.error "INVALID_MESSAGE" "Invalid message format")])
      else
        match decoded.getField "type" with
        | some (JSValue.str "hello") =>
          (match decoded.getField "protocolVersion" with
           | some (JSValue.num clientVersion) =>
             if jsStrictNe clientVersion (JSNum.num (PROTOCOL_VERSION : ℚ)) then
               (st',
                [Act.send ws (ServerMessage.error "BAD_PROTOCOL"
                    (protocolMismatchMessage clientVersion)),
                 Act.close ws 1008 "BAD_PROTOCOL"])
             else (st', [])
           | _ => (st', []))
        | some (JSValue.str "ping") =>
          (match decoded.getField "nonce" with
           | some (JSValue.str nonce) =>
             (st', [Act.send ws (ServerMessage.pong nonce now)])
           | _ =>
             (st', broadcastActs st' (some playerId) (ServerMessage.relay playerId decoded)))
        | _ =>
          (st', broadcastActs st' (some playerId) (ServerMessage.relay playerId decoded))

/-- Method `GameRoom.handleDisconnect` from `src/room.ts` (shared by
`webSocketClose` and `webSocketError`). -/
def handleDisconnect (st : RoomState) (ws : WS) : RoomState × List Act :=
  match mget st.wsToPlayer ws with
  | none => (st, [])
  | some playerId =>
    let st' : RoomState :=
      { st with connections := mdel st.connections playerId,
                wsToPlayer := mdel st.wsToPlayer ws }
    (st', broadcastActs st' none (ServerMessage.peer_left playerId))

/-- Parsing of `ALLOWED_ORIGINS` in the `GameRoom` constructor:
split on commas, trim, drop empty entries (`filter(Boolean)`). -/
def parseAllowedOrigins (v : Option String) : List String :=
  ((jsSplit (v.getD "http://localhost:3000") ',').map jsTrim).filter (fun s => s ≠ "")

/-- Registration of one hibernation-retained WebSocket in the constructor:
skipped when the deserialized attachment is null or its `playerId` is
falsy (`!attachment?.playerId`), otherwise both maps gain the identity
with a fresh empty-window `RateLimiter`. -/
def restoreOne (now : ℤ) (st : RoomState) (wsAtt : WS × Option PlayerId) : RoomState :=
  match wsAtt.2 with
  | none => st
  | some pid =>
    if pid = "" then st
    else
      let conn : PlayerConnection :=
        { playerId := pid, webSocket := wsAtt.1,
          rateLimiter := RateLimiter.create st.maxMessagesPerSecond, joinedAt := now }
      { st with connections := mset st.connections pid conn,
                wsToPlayer := mset st.wsToPlayer wsAtt.1 pid }

/-- The `GameRoom` constructor: parse configuration, then restore every
retained WebSocket (from `state.getWebSockets()`, given with its
deserialized attachment) into the registry. -/
def init (env : EnvConfig) (retained : List (WS × Option PlayerId)) (now : ℤ) : RoomState :=
  let base : RoomState :=
    { connections := [], wsToPlayer := [],
      allowedOrigins := parseAllowedOrigins env.ALLOWED_ORIGINS,
      maxMessagesPerSecond := jsMax1 (jsEnvNumber env.MAX_MESSAGES_PER_SECOND 60),
      maxPlayersPerRoom := jsMax1 (jsEnvNumber env.MAX_PLAYERS_PER_ROOM 20) }
  retained.foldl (restoreOne now) base

end GameRoom

section MapLemmas

variable {κ β : Type} [DecidableEq κ]

theorem mget_mset_self (m : List (κ × β)) (k : κ) (v : β) :
    mget (mset m k v) k = some v := by
  induction m with
  | nil => simp [mset, mget]
  | cons e rest ih =>
    simp only [mset]
    by_cases h : e.1 = k
    · simp [h, mget]
    · simp [h, mget, ih]

theorem mget_mset_ne (m : List (κ × β)) (k k' : κ) (v : β) (h : k' ≠ k) :
    mget (mset m k v) k' = mget m k' := by
  have hkk : ¬ k = k' := fun hh => h hh.symm
  induction m with
  | nil => simp [mset, mget, hkk]
  | cons e rest ih =>
    simp only [mset]
    by_cases he : e.1 = k
    · subst he
      simp [mget, hkk]
    · simp only [he, if_false, mget, ih]

theorem mget_eq_none_iff (m : List (κ × β)) (k : κ) :
    mget m k = none ↔ k ∉ mkeys m := by
  induction m with
  | nil => simp [mget, mkeys]
  | cons e rest ih =>
    simp only [mget, mkeys, List.map_cons, List.mem_cons]
    by_cases h : e.1 = k
    · simp [h]
    · simp only [h, if_false]
      rw [ih]
      have : ¬ k = e.1 := fun hh => h hh.symm
      simp [mkeys, this]

theorem mget_some_mem {m : List (κ × β)} {k : κ} {v : β} (h : mget m k = some v) :
    (k, v) ∈ m := by
  induction m with
  | nil => simp [mget] at h
  | cons e rest ih =>
    simp only [mget] at h
    by_cases he : e.1 = k
    · simp only [he, if_true, Option.some.injEq] at h
      have : (k, v) = e := by
        rw [← he, ← h]
      rw [this]
      exact List.mem_cons_self e rest
    · simp only [he, if_false] at h
      exact List.mem_cons_of_mem e (ih h)

theorem mem_mget {m : List (κ × β)} (hnd : (mkeys m).Nodup) {k : κ} {v : β}
    (h : (k, v) ∈ m) : mget m k = some v := by
  induction m with
  | nil => simp at h
  | cons e rest ih =>
    simp only [mkeys, List.map_cons, List.nodup_cons] at hnd
    rcases List.mem_cons.mp h with h | h
    · rw [← h]
      simp [mget]
    · have hk : ¬ e.1 = k := by
        intro he
        exact hnd.1 (he ▸ (List.mem_map.mpr ⟨(k, v), h, rfl⟩))
      simp only [mget, hk, if_false]
      exact ih hnd.2 h

theorem mkeys_mset_of_none {m : List (κ × β)} {k : κ} (v : β)
    (h : mget m k = none) : mkeys (mset m k v) = mkeys m ++ [k] := by
  induction m with
  | nil => simp [mset, mkeys]
  | cons e rest ih =>
    simp only [mget] at h
    by_cases he : e.1 = k
    · simp [he] at h
    · simp only [he, if_false] at h
      simp only [mset, he, if_false, mkeys, List.map_cons, List.cons_append]
      have := ih h
      simp only [mkeys] at this
      rw [this]

theorem mkeys_mset_of_some {m : List (κ × β)} {k : κ} {w : β} (v : β)
    (h : mget m k = some w) : mkeys (mset m k v) = mkeys m := by
  induction m with
  | nil => simp [mget] at h
  | cons e rest ih =>
    simp only [mget] at h
    by_cases he : e.1 = k
    · simp [mset, he, mkeys]
    · simp only [he, if_false] at h
      simp only [mset, he, if_false, mkeys, List.map_cons]
      have := ih h
      simp only [mkeys] at this
      rw [this]

theorem nodup_mkeys_mset {m : List (κ × β)} {k : κ} (v : β)
    (hnd : (mkeys m).Nodup) : (mkeys (mset m k v)).Nodup := by
  cases h : mget m k with
  | none =>
    rw [mkeys_mset_of_none v h]
    have hk : k ∉ mkeys m := (mget_eq_none_iff m k).mp h
    simp [List.nodup_append, hnd, hk]
  | some w => rw [mkeys_mset_of_some v h]; exact hnd

theorem mem_mset_of_nodup {m : List (κ × β)} (hnd : (mkeys m).Nodup) {k : κ} {v : β}
    {e : κ × β} (h : e ∈ mset m k v) : e = (k, v) ∨ (e ∈ m ∧ e.1 ≠ k) := by
  induction m with
  | nil =>
    simp only [mset] at h
    rcases List.mem_singleton.mp h with h
    left; exact h
  | cons f rest ih =>
    simp only [mkeys, List.map_cons, List.nodup_cons] at hnd
    simp only [mset] at h
    by_cases hf : f.1 = k
    · rw [if_pos hf] at h
      rcases List.mem_cons.mp h with h | h
      · left; exact h
      · right
        refine ⟨List.mem_cons_of_mem f h, ?_⟩
        intro hek
        exact hnd.1 (hf ▸ hek ▸ (List.mem_map.mpr ⟨e, h, rfl⟩))
    · rw [if_neg hf] at h
      rcases List.mem_cons.mp h with h | h
      · right
        rw [h]
        exact ⟨List.mem_cons_self _ _, hf⟩
      · rcases ih hnd.2 h with h' | h'
        · left; exact h'
        · right; exact ⟨List.mem_cons_of_mem f h'.1, h'.2⟩

theorem mdel_sublist (m : List (κ × β)) (k : κ) : (mdel m k).Sublist m := by
  induction m with
  | nil => simp [mdel]
  | cons e rest ih =>
    simp only [mdel]
    by_cases h : e.1 = k
    · simp only [h, if_true]
      exact List.sublist_cons_self e rest
    · simp only [h, if_false]
      exact List.Sublist.cons₂ e ih

theorem nodup_mkeys_mdel {m : List (κ × β)} (k : κ) (hnd : (mkeys m).Nodup) :
    (mkeys (mdel m k)).Nodup := by
  simp only [mkeys] at hnd ⊢
  exact (List.Sublist.map (fun e => e.1) (mdel_sublist m k)).nodup hnd

theorem mem_mdel {m : List (κ × β)} {k : κ} {e : κ × β} (h : e ∈ mdel m k) : e ∈ m :=
  (mdel_sublist m k).mem h

theorem mget_mdel_self {m : List (κ × β)} (hnd : (mkeys m).Nodup) (k : κ) :
    mget (mdel m k) k = none := by
  induction m with
  | nil => simp [mdel, mget]
  | cons e rest ih =>
    simp only [mkeys, List.map_cons, List.nodup_cons] at hnd
    simp only [mdel]
    by_cases h : e.1 = k
    · rw [if_pos h]
      rw [mget_eq_none_iff]
      intro hk
      exact hnd.1 (h ▸ hk)
    · rw [if_neg h]
      simp only [mget, h, if_false]
      exact ih hnd.2

theorem mget_mdel_ne (m : List (κ × β)) {k k' : κ} (h : k' ≠ k) :
    mget (mdel m k) k' = mget m k' := by
  induction m with
  | nil => simp [mdel]
  | cons e rest ih =>
    simp only [mdel]
    by_cases he : e.1 = k
    · subst he
      have : ¬ e.1 = k' := fun hh => h hh.symm
      simp [mget, this]
    · simp only [he, if_false, mget, ih]

theorem mem_mdel_ne {m : List (κ × β)} (hnd : (mkeys m).Nodup) {k : κ} {e : κ × β}
    (h : e ∈ mdel m k) : e ∈ m ∧ e.1 ≠ k := by
  refine ⟨mem_mdel h, ?_⟩
  intro hek
  have hmem : (e.1, e.2) ∈ mdel m k := by
    rw [Prod.mk.eta]
    exact h
  have h1 : mget (mdel m k) e.1 = some e.2 :=
    mem_mget (nodup_mkeys_mdel k hnd) hmem
  rw [hek, mget_mdel_self hnd k] at h1
  exact Option.noConfusion h1

end MapLemmas

/-- One externally triggered event on a room: an upgrade request (with
the identity and server socket the admission would generate), an inbound
frame, or a close/error callback. -/
inductive Step where
  | join : Option String → Option String → PlayerId → WS → ℤ → Step
  | message : WS → JSValue → ℤ → Step
  | disconnect : WS → Step

/-- Apply one event to the room, yielding the new state and the outbound
actions it caused. -/
def applyStep (st : RoomState) : Step → RoomState × List Act
  | Step.join upgrade origin pid ws now =>
    let r := GameRoom.fetch st upgrade origin pid ws now
    (r.1, r.2.1)
  | Step.message ws v now => GameRoom.webSocketMessage st ws v now
  | Step.disconnect ws => GameRoom.handleDisconnect st ws

/-- Apply a sequence of events, concatenating all outbound actions. -/
def applyTrace (st : RoomState) : List Step → RoomState × List Act
  | [] => (st, [])
  | s :: rest =>
    let r := applyStep st s
    let r' := applyTrace r.1 rest
    (r'.1, r.2 ++ r'.2)

/-- Freshness of the identity and socket an admission would generate:
`crypto.randomUUID()` never repeats a registered identity and a new
`WebSocketPair` is a new object.  Non-admission steps carry no oracle. -/
def FreshStep (st : RoomState) : Step → Prop
  | Step.join _ _ pid ws _ =>
    mget st.connections pid = none ∧ mget st.wsToPlayer ws = none
  | Step.message _ _ _ => True
  | Step.disconnect _ => True

instance instDecidableFreshStep (st : RoomState) (s : Step) : Decidable (FreshStep st s) :=
  match s with
  | Step.join _ _ _ _ _ => inferInstanceAs (Decidable (_ ∧ _))
  | Step.message _ _ _ => Decidable.isTrue trivial
  | Step.disconnect _ => Decidable.isTrue trivial

/-- Every admission along the trace draws a fresh identity and socket. -/
def FreshAlong (st : RoomState) : List Step → Prop
  | [] => True
  | s :: rest => FreshStep st s ∧ FreshAlong (applyStep st s).1 rest

instance instDecidableFreshAlong (st : RoomState) : (l : List Step) → Decidable (FreshAlong st l)
  | [] => Decidable.isTrue trivial
  | s :: rest =>
    @instDecidableAnd _ _ (instDecidableFreshStep st s)
      (instDecidableFreshAlong (applyStep st s).1 rest)

/-- The registry consistency invariant of `GameRoom`: both maps have
unique keys, every handle→identity entry points at a connection entry
holding that very handle, and every identity→connection entry records its
own key as `playerId` and is pointed back at by the handle map. -/
def RegInv (st : RoomState) : Prop :=
  (mkeys st.connections).Nodup ∧ (mkeys st.wsToPlayer).Nodup ∧
  (∀ e ∈ st.wsToPlayer,
    (mget st.connections e.2).map PlayerConnection.webSocket = some e.1) ∧
  (∀ e ∈ st.connections,
    e.2.playerId = e.1 ∧ mget st.wsToPlayer e.2.webSocket = some e.1)

instance instDecidableRegInv (st : RoomState) : Decidable (RegInv st) := by
  unfold RegInv
  infer_instance

/-- The sockets currently held by connection entries, in insertion order. -/
def sockets (st : RoomState) : List WS :=
  st.connections.map (fun e => e.2.webSocket)

theorem reginv_insert {st : RoomState} {pid : PlayerId} {conn : PlayerConnection} {ws : WS}
    (hinv : RegInv st) (hpid : mget st.connections pid = none)
    (hws : mget st.wsToPlayer ws = none)
    (hcp : conn.playerId = pid) (hcw : conn.webSocket = ws) :
    RegInv { st with connections := mset st.connections pid conn,
                     wsToPlayer := mset st.wsToPlayer ws pid } := by
  obtain ⟨hnc, hnw, hfwd, hbwd⟩ := hinv
  refine ⟨nodup_mkeys_mset conn hnc, nodup_mkeys_mset pid hnw, ?_, ?_⟩
  · intro e he
    rcases mem_mset_of_nodup hnw he with he' | ⟨he', hne⟩
    · rw [he']
      simp only [mget_mset_self, Option.map_some', hcw]
    · have h1 := hfwd e he'
      have hsome : (mget st.connections e.2).isSome := by
        cases hc2 : mget st.connections e.2 with
        | none => rw [hc2] at h1; simp at h1
        | some c => simp
      have hne2 : e.2 ≠ pid := by
        intro hh
        rw [hh, hpid] at hsome
        simp at hsome
      rw [mget_mset_ne _ _ _ _ hne2]
      exact h1
  · intro e he
    rcases mem_mset_of_nodup hnc he with he' | ⟨he', hne⟩
    · rw [he']
      refine ⟨hcp, ?_⟩
      rw [hcw, mget_mset_self]
    · have h1 := hbwd e he'
      have hne2 : e.2.webSocket ≠ ws := by
        intro hh
        rw [hh, hws] at h1
        exact Option.noConfusion h1.2
      refine ⟨h1.1, ?_⟩
      rw [mget_mset_ne _ _ _ _ hne2]
      exact h1.2

theorem reginv_update_conn {st : RoomState} {pid : PlayerId} {conn conn' : PlayerConnection}
    (hinv : RegInv st) (hconn : mget st.connections pid = some conn)
    (hp : conn'.playerId = conn.playerId) (hw : conn'.webSocket = conn.webSocket) :
    RegInv { st with connections := mset st.connections pid conn' } := by
  obtain ⟨hnc, hnw, hfwd, hbwd⟩ := hinv
  have hbc := hbwd _ (mget_some_mem hconn)
  refine ⟨nodup_mkeys_mset conn' hnc, hnw, ?_, ?_⟩
  · intro e he
    have h1 := hfwd e he
    by_cases hep : e.2 = pid
    · rw [hep, mget_mset_self]
      rw [hep, hconn] at h1
      simp only [Option.map_some'] at h1 ⊢
      rw [hw]
      exact h1
    · rw [mget_mset_ne _ _ _ _ hep]
      exact h1
  · intro e he
    rcases mem_mset_of_nodup hnc he with he' | ⟨he', _⟩
    · rw [he']
      refine ⟨?_, ?_⟩
      · simp only
        rw [hp]
        exact hbc.1
      · simp only
        rw [hw]
        exact hbc.2
    · exact hbwd e he'

theorem reginv_remove {st : RoomState} {ws : WS} {pid : PlayerId}
    (hinv : RegInv st) (hws : mget st.wsToPlayer ws = some pid) :
    RegInv { st with connections := mdel st.connections pid,
                     wsToPlayer := mdel st.wsToPlayer ws } := by
  obtain ⟨hnc, hnw, hfwd, hbwd⟩ := hinv
  have h1 := hfwd (ws, pid) (mget_some_mem hws)
  simp only at h1
  obtain ⟨c, hc, hcws⟩ : ∃ c, mget st.connections pid = some c ∧ c.webSocket = ws := by
    cases hc0 : mget st.connections pid with
    | none => rw [hc0] at h1; simp at h1
    | some c =>
      refine ⟨c, rfl, ?_⟩
      rw [hc0] at h1
      simpa using h1
  refine ⟨nodup_mkeys_mdel _ hnc, nodup_mkeys_mdel _ hnw, ?_, ?_⟩
  · intro e he
    obtain ⟨hmem, hne⟩ := mem_mdel_ne hnw he
    have h2 := hfwd e hmem
    have hep : e.2 ≠ pid := by
      intro hh
      rw [hh, hc] at h2
      simp only [Option.map_some', Option.some.injEq] at h2
      exact hne (by rw [← h2, hcws])
    rw [mget_mdel_ne _ hep]
    exact h2
  · intro e he
    obtain ⟨hmem, hne⟩ := mem_mdel_ne hnc he
    have h2 := hbwd e hmem
    have hew : e.2.webSocket ≠ ws := by
      intro hh
      rw [hh, hws] at h2
      exact hne (Option.some.inj h2.2).symm
    refine ⟨h2.1, ?_⟩
    rw [mget_mdel_ne _ hew]
    exact h2.2

/-- The sender's connection entry after its rate limiter processed a
message at `now` (the in-place mutation `conn.rateLimiter.allow()`). -/
def tickedConn (conn : PlayerConnection) (now : ℤ) : PlayerConnection :=
  { conn with rateLimiter := (conn.rateLimiter.allow now).2 }

/-- The room state after the sender's rate limiter processed a message. -/
def tickedState (st : RoomState) (pid : PlayerId) (conn : PlayerConnection) (now : ℤ) : RoomState :=
  { st with connections := mset st.connections pid (tickedConn conn now) }

/-- Post-state of `webSocketMessage`: either nothing changed (unknown
handle or missing entry) or exactly the sender's rate limiter advanced. -/
theorem webSocketMessage_state (st : RoomState) (ws : WS) (decoded : JSValue) (now : ℤ) :
    (GameRoom.webSocketMessage st ws decoded now).1 = st ∨
    ∃ pid conn, mget st.wsToPlayer ws = some pid ∧
      mget st.connections pid = some conn ∧
      (GameRoom.webSocketMessage st ws decoded now).1 = tickedState st pid conn now := by
  unfold GameRoom.webSocketMessage
  cases hw : mget st.wsToPlayer ws with
  | none => left; rfl
  | some pid =>
    dsimp only
    cases hc : mget st.connections pid with
    | none => left; rfl
    | some conn =>
      right
      refine ⟨pid, conn, rfl, hc, ?_⟩
      unfold tickedState tickedConn
      dsimp only
      split
      · rfl
      · split
        · rfl
        · split <;> first | rfl | (split <;> first | rfl | (split <;> rfl))

/-- Post-state of `handleDisconnect`: no-op on an unknown handle,
otherwise both entries removed. -/
theorem handleDisconnect_state (st : RoomState) (ws : WS) :
    ((mget st.wsToPlayer ws = none ∧ GameRoom.handleDisconnect st ws = (st, [])) ∨
     ∃ pid, mget st.wsToPlayer ws = some pid ∧
       (GameRoom.handleDisconnect st ws).1 =
         { st with connections := mdel st.connections pid,
                   wsToPlayer := mdel st.wsToPlayer ws }) := by
  unfold GameRoom.handleDisconnect
  cases hw : mget st.wsToPlayer ws with
  | none => left; exact ⟨rfl, rfl⟩
  | some pid => right; exact ⟨pid, rfl, rfl⟩

theorem reginv_webSocketMessage {st : RoomState} (hinv : RegInv st)
    (ws : WS) (decoded : JSValue) (now : ℤ) :
    RegInv (GameRoom.webSocketMessage st ws decoded now).1 := by
  rcases webSocketMessage_state st ws decoded now with h | ⟨pid, conn, _, hc, h⟩
  · rw [h]; exact hinv
  · rw [h]; exact reginv_update_conn hinv hc rfl rfl

theorem reginv_handleDisconnect {st : RoomState} (hinv : RegInv st) (ws : WS) :
    RegInv (GameRoom.handleDisconnect st ws).1 := by
  rcases handleDisconnect_state st ws with ⟨_, h⟩ | ⟨pid, hw, h⟩
  · rw [h]; exact hinv
  · rw [h]; exact reginv_remove hinv hw

theorem reginv_fetch {st : RoomState} (hinv : RegInv st)
    (u o : Option String) {pid : PlayerId} {ws : WS} (now : ℤ)
    (hpid : mget st.connections pid = none) (hws : mget st.wsToPlayer ws = none) :
    RegInv (GameRoom.fetch st u o pid ws now).1 := by
  unfold GameRoom.fetch
  cases u with
  | none => exact hinv
  | some h =>
    dsimp only
    split
    · exact hinv
    · split
      · exact hinv
      · split
        · exact hinv
        · exact reginv_insert hinv hpid hws rfl rfl

theorem reginv_applyStep {st : RoomState} (hinv : RegInv st) {s : Step}
    (hfresh : FreshStep st s) : RegInv (applyStep st s).1 := by
  cases s with
  | join u o pid ws now => exact reginv_fetch hinv u o now hfresh.1 hfresh.2
  | message ws v now => exact reginv_webSocketMessage hinv ws v now
  | disconnect ws => exact reginv_handleDisconnect hinv ws

theorem reginv_applyTrace {st : RoomState} (hinv : RegInv st) {l : List Step}
    (hfresh : FreshAlong st l) : RegInv (applyTrace st l).1 := by
  induction l generalizing st with
  | nil => exact hinv
  | cons s rest ih =>
    exact ih (reginv_applyStep hinv hfresh.1) hfresh.2

/-- Under the registry invariant, distinct connection entries hold
distinct sockets. -/
theorem sockets_nodup {st : RoomState} (hinv : RegInv st) : (sockets st).Nodup := by
  obtain ⟨hnc, _, _, hbwd⟩ := hinv
  have hent : st.connections.Nodup := List.Nodup.of_map _ hnc
  refine List.Nodup.map_on ?_ hent
  intro x hx y hy hxy
  have hbx := hbwd x hx
  have hby := hbwd y hy
  have h1 : x.1 = y.1 := by
    have := hbx.2
    rw [hxy, hby.2] at this
    exact (Option.some.inj this).symm
  have hmx : mget st.connections x.1 = some x.2 := mem_mget hnc (by rw [Prod.mk.eta]; exact hx)
  have hmy : mget st.connections y.1 = some y.2 := mem_mget hnc (by rw [Prod.mk.eta]; exact hy)
  rw [h1, hmy] at hmx
  have h2 : y.2 = x.2 := Option.some.inj hmx
  calc x = (x.1, x.2) := by rw [Prod.mk.eta]
  _ = (y.1, y.2) := by rw [h1, h2]
  _ = y := by rw [Prod.mk.eta]

theorem broadcastActs_target_mem {st : RoomState} {excl : Option PlayerId}
    {msg : ServerMessage} {a : Act} (h : a ∈ GameRoom.broadcastActs st excl msg) :
    Act.target a ∈ sockets st := by
  unfold GameRoom.broadcastActs at h
  obtain ⟨e, he, rfl⟩ := List.mem_map.mp h
  exact List.mem_map.mpr ⟨e, List.mem_filter.mp he |>.1, rfl⟩

/-- Replacing the excluded sender's entry does not change what a
broadcast excluding that sender delivers. -/
theorem broadcast_filter_mset (m : List (PlayerId × PlayerConnection)) (pid : PlayerId)
    (conn' : PlayerConnection) (hid : ∀ e ∈ m, e.2.playerId = e.1)
    (hpe : pid ≠ "") (hcp : conn'.playerId = pid) :
    (mset m pid conn').filter (fun e => ! GameRoom.broadcastSkips (some pid) e.2.playerId) =
      m.filter (fun e => ! GameRoom.broadcastSkips (some pid) e.2.playerId) := by
  have hskip : GameRoom.broadcastSkips (some pid) conn'.playerId = true := by
    simp [GameRoom.broadcastSkips, hpe, hcp]
  induction m with
  | nil =>
    simp only [mset, List.filter]
    rw [hskip]
    rfl
  | cons e rest ih =>
    simp only [mset]
    by_cases he : e.1 = pid
    · rw [if_pos he]
      have heskip : GameRoom.broadcastSkips (some pid) e.2.playerId = true := by
        simp [GameRoom.broadcastSkips, hpe, hid e (List.mem_cons_self e rest), he]
      simp only [List.filter, hskip, heskip, Bool.not_true]
    · rw [if_neg he]
      simp only [List.filter]
      have ihr := ih (fun f hf => hid f (List.mem_cons_of_mem e hf))
      cases hb : (! GameRoom.broadcastSkips (some pid) e.2.playerId) with
      | true => rw [ihr]
      | false => exact ihr

/-- A broadcast excluding an identity registered under no entry delivers
to every registered connection. -/
theorem filter_no_skip (m : List (PlayerId × PlayerConnection)) (pid : PlayerId)
    (hid : ∀ e ∈ m, e.2.playerId = e.1) (hpid : pid ∉ mkeys m) :
    m.filter (fun e => ! GameRoom.broadcastSkips (some pid) e.2.playerId) = m := by
  refine List.filter_eq_self.mpr ?_
  intro e he
  have h1 : e.2.playerId ≠ pid := by
    intro hh
    exact hpid ((hid e he ▸ hh) ▸ List.mem_map.mpr ⟨e, he, rfl⟩)
  simp [GameRoom.broadcastSkips, h1]

/-- Replacing an entry by one with the same socket leaves the socket list
unchanged. -/
theorem sockets_mset_same {m : List (PlayerId × PlayerConnection)} {pid : PlayerId}
    {conn conn' : PlayerConnection} (hc : mget m pid = some conn)
    (hw : conn'.webSocket = conn.webSocket) :
    (mset m pid conn').map (fun e => e.2.webSocket) = m.map (fun e => e.2.webSocket) := by
  induction m with
  | nil => simp [mget] at hc
  | cons e rest ih =>
    simp only [mget] at hc
    simp only [mset]
    by_cases he : e.1 = pid
    · rw [if_pos he]
      rw [if_pos he] at hc
      simp only [List.map_cons]
      rw [hw, Option.some.inj hc]
    · rw [if_neg he]
      rw [if_neg he] at hc
      simp only [List.map_cons, ih hc]

theorem sockets_tickedState {st : RoomState} {pid : PlayerId} {conn : PlayerConnection}
    (hc : mget st.connections pid = some conn) (now : ℤ) :
    sockets (tickedState st pid conn now) = sockets st :=
  sockets_mset_same hc rfl

theorem mem_mset {κ β : Type} [DecidableEq κ] {m : List (κ × β)} {k : κ} {v : β}
    {e : κ × β} (h : e ∈ mset m k v) : e = (k, v) ∨ e ∈ m := by
  induction m with
  | nil =>
    simp only [mset] at h
    left
    exact List.mem_singleton.mp h
  | cons f rest ih =>
    simp only [mset] at h
    by_cases hf : f.1 = k
    · rw [if_pos hf] at h
      rcases List.mem_cons.mp h with h | h
      · left; exact h
      · right; exact List.mem_cons_of_mem f h
    · rw [if_neg hf] at h
      rcases List.mem_cons.mp h with h | h
      · right; rw [h]; exact List.mem_cons_self f rest
      · rcases ih h with h' | h'
        · left; exact h'
        · right; exact List.mem_cons_of_mem f h'

theorem mget_mdel_none {κ β : Type} [DecidableEq κ] {m : List (κ × β)} {k' : κ}
    (h : mget m k' = none) (k : κ) : mget (mdel m k) k' = none := by
  rw [mget_eq_none_iff] at h ⊢
  intro hmem
  obtain ⟨e, he, rfl⟩ := List.mem_map.mp hmem
  exact h (List.mem_map.mpr ⟨e, mem_mdel he, rfl⟩)

/-- A socket with no handle-map entry and no connection entry: the state
in which the room can neither route nor target it. -/
def Unregistered (st : RoomState) (ws : WS) : Prop :=
  mget st.wsToPlayer ws = none ∧ ws ∉ sockets st

instance instDecidableUnregistered (st : RoomState) (ws : WS) :
    Decidable (Unregistered st ws) := by
  unfold Unregistered
  infer_instance

/-- The step is not an admission handing out this very socket. -/
def StepAvoids (ws : WS) : Step → Prop
  | Step.join _ _ _ w _ => w ≠ ws
  | Step.message _ _ _ => True
  | Step.disconnect _ => True

instance instDecidableStepAvoids (ws : WS) (s : Step) : Decidable (StepAvoids ws s) :=
  match s with
  | Step.join _ _ _ _ _ => inferInstanceAs (Decidable (_ ≠ _))
  | Step.message _ _ _ => Decidable.isTrue trivial
  | Step.disconnect _ => Decidable.isTrue trivial

theorem webSocketMessage_unregistered {st : RoomState} {ws : WS}
    (h : mget st.wsToPlayer ws = none) (v : JSValue) (now : ℤ) :
    GameRoom.webSocketMessage st ws v now = (st, []) := by
  unfold GameRoom.webSocketMessage
  rw [h]

theorem webSocketMessage_targets {st : RoomState} (ws : WS) (v : JSValue) (now : ℤ) :
    ∀ a ∈ (GameRoom.webSocketMessage st ws v now).2,
      (Act.target a = ws ∧ mget st.wsToPlayer ws ≠ none) ∨ Act.target a ∈ sockets st := by
  unfold GameRoom.webSocketMessage
  cases hw : mget st.wsToPlayer ws with
  | none => intro a ha; simp at ha
  | some pid =>
    dsimp only
    cases hc : mget st.connections pid with
    | none => intro a ha; simp at ha
    | some conn =>
      intro a ha
      dsimp only at ha
      have hsn : (some pid : Option PlayerId) ≠ none := Option.some_ne_none pid
      have hb : ∀ (excl : Option PlayerId) (msg : ServerMessage),
          a ∈ GameRoom.broadcastActs (tickedState st pid conn now) excl msg →
          Act.target a ∈ sockets st := by
        intro excl msg hmem
        have h1 := broadcastActs_target_mem hmem
        rwa [sockets_tickedState hc now] at h1
      revert ha
      split
      · intro ha
        rcases List.mem_singleton.mp ha with rfl
        exact Or.inl ⟨rfl, hsn⟩
      · split
        · intro ha
          rcases List.mem_singleton.mp ha with rfl
          exact Or.inl ⟨rfl, hsn⟩
        · split
          · split
            · split
              · intro ha
                rcases List.mem_cons.mp ha with rfl | ha
                · exact Or.inl ⟨rfl, hsn⟩
                · rcases List.mem_singleton.mp ha with rfl
                  exact Or.inl ⟨rfl, hsn⟩
              · intro ha
                simp at ha
            · intro ha
              simp at ha
          · split
            · intro ha
              rcases List.mem_singleton.mp ha with rfl
              exact Or.inl ⟨rfl, hsn⟩
            · intro ha
              exact Or.inr (hb _ _ ha)
          · intro ha
            exact Or.inr (hb _ _ ha)

theorem handleDisconnect_targets {st : RoomState} (ws : WS) :
    ∀ a ∈ (GameRoom.handleDisconnect st ws).2, Act.target a ∈ sockets st := by
  unfold GameRoom.handleDisconnect
  cases hw : mget st.wsToPlayer ws with
  | none => intro a ha; simp at ha
  | some pid =>
    intro a ha
    dsimp only at ha
    have h1 := broadcastActs_target_mem ha
    obtain ⟨e, he, heq⟩ := List.mem_map.mp h1
    rw [← heq]
    exact List.mem_map.mpr ⟨e, mem_mdel he, rfl⟩

theorem fetch_targets {st : RoomState} (u o : Option String) (pid : PlayerId)
    (w : WS) (now : ℤ) :
    ∀ a ∈ (GameRoom.fetch st u o pid w now).2.1,
      Act.target a = w ∨ Act.target a ∈ sockets st := by
  unfold GameRoom.fetch
  cases u with
  | none => intro a ha; simp at ha
  | some h =>
    dsimp only
    split
    · intro a ha; simp at ha
    · split
      · intro a ha; simp at ha
      · split
        · intro a ha; simp at ha
        · intro a ha
          dsimp only at ha
          rcases List.mem_cons.mp ha with rfl | ha
          · left; rfl
          · have h1 := broadcastActs_target_mem ha
            obtain ⟨e, he, heq⟩ := List.mem_map.mp h1
            rcases mem_mset he with rfl | he'
            · left; rw [← heq]
            · right; rw [← heq]; exact List.mem_map.mpr ⟨e, he', rfl⟩

theorem unregistered_applyStep {st : RoomState} {ws : WS} (hu : Unregistered st ws)
    {s : Step} (hs : StepAvoids ws s) : Unregistered (applyStep st s).1 ws := by
  cases s with
  | join u o pid w now =>
    have hwne : w ≠ ws := hs
    show Unregistered (GameRoom.fetch st u o pid w now).1 ws
    unfold GameRoom.fetch
    cases u with
    | none => exact hu
    | some h =>
      dsimp only
      split
      · exact hu
      · split
        · exact hu
        · split
          · exact hu
          · constructor
            · show mget (mset st.wsToPlayer w pid) ws = none
              rw [mget_mset_ne _ _ _ _ (fun hh => hwne hh.symm)]
              exact hu.1
            · intro hmem
              obtain ⟨e, he, hews⟩ := List.mem_map.mp hmem
              rcases mem_mset he with rfl | he'
              · exact hwne hews
              · exact hu.2 (List.mem_map.mpr ⟨e, he', hews⟩)
  | message w v now =>
    rcases webSocketMessage_state st w v now with hst | ⟨pid, conn, _, hc, hst⟩
    · show Unregistered (GameRoom.webSocketMessage st w v now).1 ws
      rw [hst]; exact hu
    · show Unregistered (GameRoom.webSocketMessage st w v now).1 ws
      rw [hst]
      refine ⟨hu.1, ?_⟩
      show ws ∉ sockets (tickedState st pid conn now)
      rw [sockets_tickedState hc now]
      exact hu.2
  | disconnect w =>
    rcases handleDisconnect_state st w with ⟨_, hst⟩ | ⟨pid, hw, hst⟩
    · show Unregistered (GameRoom.handleDisconnect st w).1 ws
      rw [hst]; exact hu
    · show Unregistered (GameRoom.handleDisconnect st w).1 ws
      rw [hst]
      refine ⟨mget_mdel_none hu.1 w, ?_⟩
      intro hmem
      obtain ⟨e, he, hews⟩ := List.mem_map.mp hmem
      exact hu.2 (List.mem_map.mpr ⟨e, mem_mdel he, hews⟩)

theorem applyStep_avoids_target {st : RoomState} {ws : WS} (hu : Unregistered st ws)
    {s : Step} (hs : StepAvoids ws s) :
    ∀ a ∈ (applyStep st s).2, Act.target a ≠ ws := by
  cases s with
  | join u o pid w now =>
    intro a ha
    rcases fetch_targets u o pid w now a ha with h | h
    · rw [h]; exact hs
    · intro hh; exact hu.2 (hh ▸ h)
  | message w v now =>
    intro a ha
    rcases webSocketMessage_targets w v now a ha with ⟨h, hne⟩ | h
    · intro hh
      rw [hh] at h
      apply hne
      rw [← h]
      exact hu.1
    · intro hh; exact hu.2 (hh ▸ h)
  | disconnect w =>
    intro a ha
    have h := handleDisconnect_targets w a ha
    intro hh; exact hu.2 (hh ▸ h)

/-- No step along the trace is an admission handing out this socket. -/
def TraceAvoids (ws : WS) (l : List Step) : Prop := ∀ s ∈ l, StepAvoids ws s

instance instDecidableTraceAvoids (ws : WS) (l : List Step) :
    Decidable (TraceAvoids ws l) :=
  inferInstanceAs (Decidable (∀ s ∈ l, StepAvoids ws s))

theorem applyTrace_avoids_target {st : RoomState} {ws : WS} (hu : Unregistered st ws)
    {l : List Step} (hl : TraceAvoids ws l) :
    ∀ a ∈ (applyTrace st l).2, Act.target a ≠ ws := by
  induction l generalizing st with
  | nil => intro a ha; simp [applyTrace] at ha
  | cons s rest ih =>
    intro a ha
    have hss : StepAvoids ws s := hl s (List.mem_cons_self s rest)
    have hrest : TraceAvoids ws rest := fun t ht => hl t (List.mem_cons_of_mem s ht)
    simp only [applyTrace, List.mem_append] at ha
    rcases ha with ha | ha
    · exact applyStep_avoids_target hu hss a ha
    · exact ih (unregistered_applyStep hu hss) hrest a ha

theorem allow_length_le {rl : RateLimiter} {c : ℤ}
    (hmax : rl.maxMessages = JSNum.num (c : ℚ))
    (hlen : ((rl.timestamps.length : ℤ)) ≤ c) (t : ℤ) :
    (((rl.allow t).2.timestamps.length : ℤ) ≤ c) ∧
      (rl.allow t).2.maxMessages = JSNum.num (c : ℚ) := by
  have hts : (evictOld (t - 1000) rl.timestamps).length ≤ rl.timestamps.length :=
    (evictOld_sublist _ _).length_le
  simp only [RateLimiter.allow]
  split
  · refine ⟨?_, hmax⟩
    calc ((evictOld (t - 1000) rl.timestamps).length : ℤ)
        ≤ (rl.timestamps.length : ℤ) := by exact_mod_cast hts
    _ ≤ c := hlen
  · rename_i hcond
    have hlt : ((evictOld (t - 1000) rl.timestamps).length : ℤ) < c := by
      by_contra hge
      push_neg at hge
      apply hcond
      rw [hmax]
      show decide ((c : ℚ) ≤ ((evictOld (t - 1000) rl.timestamps).length : ℚ)) = true
      rw [decide_eq_true_iff]
      exact_mod_cast hge
    refine ⟨?_, hmax⟩
    simp only [List.length_append, List.length_singleton]
    push_cast
    omega

theorem runAllow_length_le {rl : RateLimiter} {c : ℤ}
    (hmax : rl.maxMessages = JSNum.num (c : ℚ))
    (hlen : ((rl.timestamps.length : ℤ)) ≤ c) (calls : List ℤ) :
    ((runAllow rl calls).timestamps.length : ℤ) ≤ c := by
  induction calls generalizing rl with
  | nil => exact hlen
  | cons t rest ih =>
    have h := allow_length_le hmax hlen t
    exact ih h.2 h.1

/-- C7: `RateLimiter.allow(now)` first evicts every retained timestamp
strictly older than `now - 1000` from the front, then refuses without
recording `now` when the remaining count reaches the capacity and
otherwise appends `now` and accepts; a capacity-3 limiter accepts at
t = 0, 100, 200, refuses the fourth call at t = 300, and accepts again at
t = 1001 once the window slid past t = 0. -/
theorem rate_limiter_allow_spec :
    (∀ (rl : RateLimiter) (now : ℤ),
      (jsGe (JSNum.num (((rl.timestamps.dropWhile (fun t => decide (t < now - 1000))).length : ℚ)))
          rl.maxMessages = true →
        rl.allow now =
          (false, { rl with timestamps :=
            rl.timestamps.dropWhile (fun t => decide (t < now - 1000)) })) ∧
      (jsGe (JSNum.num (((rl.timestamps.dropWhile (fun t => decide (t < now - 1000))).length : ℚ)))
          rl.maxMessages = false →
        rl.allow now =
          (true, { rl with timestamps :=
            rl.timestamps.dropWhile (fun t => decide (t < now - 1000)) ++ [now] }))) ∧
    allowResults (RateLimiter.create (JSNum.num 3)) [0, 100, 200, 300, 1001] =
      [true, true, true, false, true] := by
  constructor
  · intro rl now
    constructor
    · intro hge
      simp only [RateLimiter.allow, evictOld_eq_dropWhile]
      rw [if_pos hge]
    · intro hge
      simp only [RateLimiter.allow, evictOld_eq_dropWhile]
      rw [if_neg (by rw [hge]; exact Bool.false_ne_true)]
  · decide

/-- Witness for C7: the general clause applied at a full window (a refusal
at t = 300 after accepts at 0, 100, 200) and at an accepting call. -/
theorem rate_limiter_allow_spec_witness :
    ({ timestamps := [0, 100, 200], maxMessages := JSNum.num 3 } : RateLimiter).allow 300 =
      (false, { timestamps := [0, 100, 200], maxMessages := JSNum.num 3 }) ∧
    ({ timestamps := [], maxMessages := JSNum.num 3 } : RateLimiter).allow 0 =
      (true, { timestamps := [0], maxMessages := JSNum.num 3 }) := by
  constructor
  · have h := (rate_limiter_allow_spec.1
      { timestamps := [0, 100, 200], maxMessages := JSNum.num 3 } 300).1 (by decide)
    rw [h]
    decide
  · have h := (rate_limiter_allow_spec.1
      { timestamps := [], maxMessages := JSNum.num 3 } 0).2 (by decide)
    rw [h]
    decide

/-- C8: a limiter built by the constructor from a numeric configuration
value never retains more timestamps than its capacity
`max(1, floor(q))`, after any sequence of `allow` calls. -/
theorem rate_limiter_capacity_invariant (q : ℚ) (calls : List ℤ) :
    ((runAllow (RateLimiter.create (JSNum.num q)) calls).timestamps.length : ℤ) ≤
      max 1 (Rat.floor q) ∧
    (RateLimiter.create (JSNum.num q)).maxMessages =
      JSNum.num ((max 1 (Rat.floor q) : ℤ) : ℚ) := by
  have hcast : ((max 1 (Rat.floor q) : ℤ) : ℚ) = max 1 ((Rat.floor q : ℤ) : ℚ) := by
    push_cast
    rfl
  have hmax : (RateLimiter.create (JSNum.num q)).maxMessages =
      JSNum.num ((max 1 (Rat.floor q) : ℤ) : ℚ) := by
    show jsMax1 (jsFloor (JSNum.num q)) = _
    simp only [jsFloor, jsMax1, hcast]
  refine ⟨?_, hmax⟩
  refine runAllow_length_le hmax ?_ calls
  show ((0 : ℕ) : ℤ) ≤ max 1 (Rat.floor q)
  simp only [Nat.cast_zero]
  exact le_trans (by norm_num) (le_max_left 1 (Rat.floor q))

/-- An environment whose numeric variables hold a non-numeric string. -/
def envNaN : EnvConfig :=
  { ALLOWED_ORIGINS := none, MAX_MESSAGES_PER_SECOND := some "abc",
    MAX_PLAYERS_PER_ROOM := some "abc" }

/-- Twenty-five hibernation-retained sockets with distinct identities,
more than the documented default room capacity of 20. -/
def retainedDemo : List (WS × Option PlayerId) :=
  (List.range 25).map (fun i => (i, some (String.mk [Char.ofNat (65 + i)])))

/-- C9 (refuted by the code): with `MAX_MESSAGES_PER_SECOND="abc"` and
`MAX_PLAYERS_PER_ROOM="abc"`, `Number("abc")` is NaN and
`Math.max(1, NaN)` is NaN, so both effective limits are NaN rather than
numbers `≥ 1`; every `>=` comparison against NaN is false, hence a
NaN-capacity limiter accepts 100 messages in the same millisecond and a
room already holding 25 connections (above the default cap of 20) still
admits the next one. -/
theorem nan_config_disables_limits :
    (GameRoom.init envNaN [] 0).maxMessagesPerSecond = JSNum.nan ∧
    (GameRoom.init envNaN [] 0).maxPlayersPerRoom = JSNum.nan ∧
    (RateLimiter.create JSNum.nan).maxMessages = JSNum.nan ∧
    allowResults (RateLimiter.create JSNum.nan) (List.replicate 100 0) =
      List.replicate 100 true ∧
    (GameRoom.init envNaN retainedDemo 0).connections.length = 25 ∧
    (GameRoom.fetch (GameRoom.init envNaN retainedDemo 0)
      (some "websocket") none "fresh" 1000 0).2.2 = 101 := by
  set_option maxRecDepth 10000 in
  refine ⟨by decide, by decide, by decide, by decide, by decide, by decide⟩

/-- An environment capping the room at one player. -/
def envCap1 : EnvConfig :=
  { ALLOWED_ORIGINS := none, MAX_MESSAGES_PER_SECOND := none,
    MAX_PLAYERS_PER_ROOM := some "1" }

/-- A one-player room at its capacity of one. -/
def fullRoom : RoomState := GameRoom.init envCap1 [(0, some "p0")] 0

/-- C4: an upgrade request that passes the header and origin checks while
the registered-connection count has reached the numeric room capacity is
answered 503 (`RoomFull`) as a connection refusal: the state is returned
unchanged (neither registry map mutated) and no action — in particular no
in-session error frame — is emitted. -/
theorem room_full_refusal (st : RoomState) (hdr : String) (origin : Option String)
    (pid : PlayerId) (ws : WS) (now : ℤ) (cap : ℚ)
    (hh1 : hdr ≠ "") (hh2 : jsToLower hdr = "websocket")
    (ho : GameRoom.originRejected st.allowedOrigins origin = false)
    (hcap : st.maxPlayersPerRoom = JSNum.num cap)
    (hge : cap ≤ (st.connections.length : ℚ)) :
    GameRoom.fetch st (some hdr) origin pid ws now = (st, [], 503) := by
  unfold GameRoom.fetch
  dsimp only
  rw [if_neg (by
    intro hcase
    rcases hcase with hcase | hcase
    · exact hh1 hcase
    · exact hcase hh2)]
  rw [if_neg (by rw [ho]; exact Bool.false_ne_true)]
  rw [if_pos (by
    rw [hcap]
    show decide (cap ≤ (st.connections.length : ℚ)) = true
    rw [decide_eq_true_iff]
    exact hge)]

/-- Witness for C4: a room of capacity 1 holding one member refuses the
next admission with 503 and mutates nothing. -/
theorem room_full_refusal_witness :
    GameRoom.fetch fullRoom (some "websocket") none "p1" 5 7 = (fullRoom, [], 503) :=
  room_full_refusal fullRoom "websocket" none "p1" 5 7 1
    (by decide) (by decide) (by decide) (by decide) (by decide)

theorem getField_some_shape {v : JSValue} {k : String} {x : JSValue}
    (h : v.getField k = some x) : isObject v = true ∧ isArray v = false := by
  cases v <;> first | exact ⟨rfl, rfl⟩ | simp [JSValue.getField] at h

/-- C5: a registered connection whose decoded frame is a `hello` object
carrying a numeric protocol version different from the server's receives
exactly one `BAD_PROTOCOL` error frame followed by an active close with
code 1008, and — whatever the version field holds — a `hello` is consumed:
every resulting action is directed at the sender itself and none is a
relay, so nothing reaches the peers and processing stops. -/
theorem hello_protocol_check :
    (∀ (st : RoomState) (ws : WS) (pid : PlayerId) (conn : PlayerConnection)
        (decoded : JSValue) (now : ℤ) (v : JSNum),
      mget st.wsToPlayer ws = some pid →
      mget st.connections pid = some conn →
      (conn.rateLimiter.allow now).1 = true →
      decoded.getField "type" = some (JSValue.str "hello") →
      decoded.getField "protocolVersion" = some (JSValue.num v) →
      jsStrictNe v (JSNum.num (PROTOCOL_VERSION : ℚ)) = true →
      GameRoom.webSocketMessage st ws decoded now =
        (tickedState st pid conn now,
         [Act.send ws (ServerMessage.error "BAD_PROTOCOL" (protocolMismatchMessage v)),
          Act.close ws 1008 "BAD_PROTOCOL"])) ∧
    (∀ (st : RoomState) (ws : WS) (decoded : JSValue) (now : ℤ),
      decoded.getField "type" = some (JSValue.str "hello") →
      ∀ a ∈ (GameRoom.webSocketMessage st ws decoded now).2,
        Act.target a = ws ∧ Act.isRelay a = false) := by
  constructor
  · intro st ws pid conn decoded now v hw hc hallow htype hver hne
    obtain ⟨hobj, harr⟩ := getField_some_shape htype
    unfold GameRoom.webSocketMessage
    rw [hw]
    dsimp only
    rw [hc]
    dsimp only
    rw [if_neg (by rw [hallow]; exact fun hh => Bool.noConfusion hh)]
    rw [if_neg (by
      intro hcase
      rcases hcase with hcase | hcase
      · rw [hobj] at hcase; exact Bool.noConfusion hcase
      · rw [harr] at hcase; exact Bool.noConfusion hcase)]
    split
    · split
      · rename_i heqt v' heqv
        rw [hver] at heqv
        have hv : v = v' := JSValue.num.inj (Option.some.inj heqv)
        subst hv
        rw [if_pos hne]
        rfl
      · rename_i heqt hnv
        exact absurd hver (hnv v)
    · rename_i heqt
      rw [htype] at heqt
      simp at heqt
    · rename_i hne1 hne2
      exact absurd htype hne1
  · intro st ws decoded now htype a
    unfold GameRoom.webSocketMessage
    cases hw : mget st.wsToPlayer ws with
    | none => intro ha; simp at ha
    | some pid =>
      dsimp only
      cases hc : mget st.connections pid with
      | none => intro ha; simp at ha
      | some conn =>
        dsimp only
        split
        · intro ha
          rcases List.mem_singleton.mp ha with rfl
          exact ⟨rfl, rfl⟩
        · split
          · intro ha
            rcases List.mem_singleton.mp ha with rfl
            exact ⟨rfl, rfl⟩
          · split
            · split
              · split
                · intro ha
                  rcases List.mem_cons.mp ha with rfl | ha
                  · exact ⟨rfl, rfl⟩
                  · rcases List.mem_singleton.mp ha with rfl
                    exact ⟨rfl, rfl⟩
                · intro ha
                  simp at ha
              · intro ha
                simp at ha
            · rename_i heqt
              rw [htype] at heqt
              simp at heqt
            · rename_i hne1 hne2
              exact absurd htype hne1

/-- A two-member demo room (sockets 10 and 11). -/
def demoEnv : EnvConfig :=
  { ALLOWED_ORIGINS := none, MAX_MESSAGES_PER_SECOND := none,
    MAX_PLAYERS_PER_ROOM := none }

/-- Demo room with members "A" on socket 10 and "B" on socket 11. -/
def demoRoom : RoomState :=
  GameRoom.init demoEnv [(10, some "A"), (11, some "B")] 0

/-- A `hello` frame carrying protocol version 2. -/
def helloV2 : JSValue :=
  JSValue.obj [("type", JSValue.str "hello"), ("protocolVersion", JSValue.num (JSNum.num 2))]

/-- Witness for C5: in the demo room, socket 10's mismatched hello draws
one `BAD_PROTOCOL` frame and a close with code 1008, and nothing else. -/
theorem hello_protocol_check_witness :
    GameRoom.webSocketMessage demoRoom 10 helloV2 5 =
      (tickedState demoRoom "A"
        { playerId := "A", webSocket := 10,
          rateLimiter := RateLimiter.create demoRoom.maxMessagesPerSecond, joinedAt := 0 } 5,
       [Act.send 10 (ServerMessage.error "BAD_PROTOCOL" (protocolMismatchMessage (JSNum.num 2))),
        Act.close 10 1008 "BAD_PROTOCOL"]) :=
  hello_protocol_check.1 demoRoom 10 "A"
    { playerId := "A", webSocket := 10,
      rateLimiter := RateLimiter.create demoRoom.maxMessagesPerSecond, joinedAt := 0 }
    helloV2 5 (JSNum.num 2) (by decide) (by decide) (by decide) rfl rfl (by decide)

/-- Whether the decoded value's `nonce` property is a string
(`typeof decoded.nonce === "string"`). -/
def nonceIsString (v : JSValue) : Bool :=
  match v.getField "nonce" with
  | some (JSValue.str _) => true
  | _ => false

/-- A decoded value the dispatcher relays: its `type` discriminant is
neither the string `"hello"` nor the string `"ping"` accompanied by a
string nonce. -/
def relayShape (v : JSValue) : Bool :=
  match v.getField "type" with
  | some (JSValue.str t) =>
    (decide (t ≠ "hello")) && ((decide (t ≠ "ping")) || ! nonceIsString v)
  | _ => true

/-- The relay branch of `webSocketMessage`: a registered, non-rate-limited
sender of a relayable object triggers exactly the broadcast of the relay
envelope, from the state holding the sender's advanced limiter. -/
theorem webSocketMessage_relay_acts {st : RoomState} {ws : WS} {pid : PlayerId}
    {conn : PlayerConnection} {decoded : JSValue} {now : ℤ}
    (hw : mget st.wsToPlayer ws = some pid)
    (hc : mget st.connections pid = some conn)
    (hallow : (conn.rateLimiter.allow now).1 = true)
    (hobj : isObject decoded = true) (harr : isArray decoded = false)
    (hshape : relayShape decoded = true) :
    GameRoom.webSocketMessage st ws decoded now =
      (tickedState st pid conn now,
       GameRoom.broadcastActs (tickedState st pid conn now) (some pid)
         (ServerMessage.relay pid decoded)) := by
  unfold GameRoom.webSocketMessage
  rw [hw]
  dsimp only
  rw [hc]
  dsimp only
  rw [if_neg (by rw [hallow]; exact fun hh => Bool.noConfusion hh)]
  rw [if_neg (by
    intro hcase
    rcases hcase with hcase | hcase
    · rw [hobj] at hcase; exact Bool.noConfusion hcase
    · rw [harr] at hcase; exact Bool.noConfusion hcase)]
  split
  · rename_i heqt
    unfold relayShape at hshape
    rw [heqt] at hshape
    simp at hshape
  · rename_i heqt
    split
    · rename_i heqn
      unfold relayShape at hshape
      rw [heqt] at hshape
      have hn : nonceIsString decoded = true := by
        unfold nonceIsString
        rw [heqn]
      rw [hn] at hshape
      simp at hshape
    · rfl
  · rfl

/-- C2: a registered, non-rate-limited sender of a decoded non-array
object that is neither a `hello` nor a `ping` with a string nonce causes
exactly one `relay {from := sender, data := payload}` send to each other
registered connection — the payload passed through unmodified — and none
to the sender: the action list is exactly one send per non-sender entry,
no action targets the sender's socket, and the targets are pairwise
distinct. -/
theorem relay_broadcast_spec (st : RoomState) (ws : WS) (pid : PlayerId)
    (conn : PlayerConnection) (decoded : JSValue) (now : ℤ)
    (hinv : RegInv st)
    (hw : mget st.wsToPlayer ws = some pid)
    (hpid : pid ≠ "")
    (hc : mget st.connections pid = some conn)
    (hallow : (conn.rateLimiter.allow now).1 = true)
    (hobj : isObject decoded = true) (harr : isArray decoded = false)
    (hshape : relayShape decoded = true) :
    (GameRoom.webSocketMessage st ws decoded now).2 =
      (st.connections.filter (fun e => decide (e.1 ≠ pid))).map
        (fun e => Act.send e.2.webSocket (ServerMessage.relay pid decoded)) ∧
    (∀ a ∈ (GameRoom.webSocketMessage st ws decoded now).2, Act.target a ≠ ws) ∧
    ((GameRoom.webSocketMessage st ws decoded now).2.map Act.target).Nodup := by
  have hrel := webSocketMessage_relay_acts hw hc hallow hobj harr hshape
  have hid : ∀ e ∈ st.connections, e.2.playerId = e.1 := fun e he => (hinv.2.2.2 e he).1
  have hcp : (tickedConn conn now).playerId = pid := by
    show conn.playerId = pid
    exact (hinv.2.2.2 (pid, conn) (mget_some_mem hc)).1
  have hacts : (GameRoom.webSocketMessage st ws decoded now).2 =
      (st.connections.filter (fun e => decide (e.1 ≠ pid))).map
        (fun e => Act.send e.2.webSocket (ServerMessage.relay pid decoded)) := by
    rw [hrel]
    show ((mset st.connections pid (tickedConn conn now)).filter
        (fun e => ! GameRoom.broadcastSkips (some pid) e.2.playerId)).map
        (fun e => Act.send e.2.webSocket (ServerMessage.relay pid decoded)) = _
    rw [broadcast_filter_mset st.connections pid (tickedConn conn now) hid hpid hcp]
    have hfilter : st.connections.filter
        (fun e => ! GameRoom.broadcastSkips (some pid) e.2.playerId) =
        st.connections.filter (fun e => decide (e.1 ≠ pid)) := by
      apply List.filter_congr
      intro e he
      rw [GameRoom.broadcastSkips, hid e he]
      by_cases heq : e.1 = pid <;> simp [heq, hpid]
    rw [hfilter]
  refine ⟨hacts, ?_, ?_⟩
  · intro a ha
    rw [hacts] at ha
    obtain ⟨e, he, rfl⟩ := List.mem_map.mp ha
    obtain ⟨hmem, hne⟩ := List.mem_filter.mp he
    intro htarget
    have h2 := (hinv.2.2.2 e hmem).2
    have hts : e.2.webSocket = ws := htarget
    rw [hts, hw] at h2
    exact (of_decide_eq_true hne) (Option.some.inj h2).symm
  · rw [hacts, List.map_map]
    have hfn : (Act.target ∘ fun e => Act.send e.2.webSocket (ServerMessage.relay pid decoded)) =
        fun (e : PlayerId × PlayerConnection) => e.2.webSocket := rfl
    rw [hfn]
    have hsub : ((st.connections.filter (fun e => decide (e.1 ≠ pid))).map
        (fun e => e.2.webSocket)).Sublist (sockets st) :=
      (List.filter_sublist _).map _
    exact hsub.nodup (sockets_nodup hinv)

/-- Demo room with members "A" (socket 10), "B" (socket 11), "C" (socket 12). -/
def demo3 : RoomState :=
  GameRoom.init demoEnv [(10, some "A"), (11, some "B"), (12, some "C")] 0

/-- The connection entry of "A" in the three-member demo room. -/
def connA : PlayerConnection :=
  { playerId := "A", webSocket := 10,
    rateLimiter := RateLimiter.create demo3.maxMessagesPerSecond, joinedAt := 0 }

/-- An opaque game payload. -/
def moveMsg : JSValue :=
  JSValue.obj [("type", JSValue.str "move"), ("x", JSValue.num (JSNum.num 1))]

/-- Witness for C2: in the three-member room, "A" sending a move payload
relays exactly to "B" and "C" and never back to "A". -/
theorem relay_broadcast_spec_witness :
    (GameRoom.webSocketMessage demo3 10 moveMsg 5).2 =
      (demo3.connections.filter (fun e => decide (e.1 ≠ "A"))).map
        (fun e => Act.send e.2.webSocket (ServerMessage.relay "A" moveMsg)) ∧
    (∀ a ∈ (GameRoom.webSocketMessage demo3 10 moveMsg 5).2, Act.target a ≠ 10) ∧
    ((GameRoom.webSocketMessage demo3 10 moveMsg 5).2.map Act.target).Nodup :=
  relay_broadcast_spec demo3 10 "A" connA moveMsg 5
    (by decide) (by decide) (by decide) (by decide) (by decide) rfl rfl rfl


/-- The connection entry a successful admission creates. -/
def admittedConn (st : RoomState) (newPid : PlayerId) (serverWs : WS) (now : ℤ) :
    PlayerConnection :=
  { playerId := newPid, webSocket := serverWs,
    rateLimiter := RateLimiter.create st.maxMessagesPerSecond, joinedAt := now }

/-- The registry after a successful admission inserted the new entry. -/
def admittedState (st : RoomState) (newPid : PlayerId) (serverWs : WS) (now : ℤ) :
    RoomState :=
  { st with connections := mset st.connections newPid (admittedConn st newPid serverWs now),
            wsToPlayer := mset st.wsToPlayer serverWs newPid }

/-- C3: a successful admission into a room of N-1 members — the generated
identity fresh (as `crypto.randomUUID` guarantees) and the server socket
new — sends exactly one `welcome` to the new connection whose peers list
is exactly the identities registered strictly before insertion (so never
the new identity itself), and exactly one `peer_joined` carrying the new
identity to each pre-existing member, none to the new connection; the
pre-existing targets are pairwise distinct and do not include the new
socket. -/
theorem admission_welcome_spec (st : RoomState) (hdr : String) (origin : Option String)
    (newPid : PlayerId) (serverWs : WS) (now : ℤ)
    (hinv : RegInv st)
    (hh1 : hdr ≠ "") (hh2 : jsToLower hdr = "websocket")
    (ho : GameRoom.originRejected st.allowedOrigins origin = false)
    (hcap : jsGe (JSNum.num (st.connections.length : ℚ)) st.maxPlayersPerRoom = false)
    (hfresh : mget st.connections newPid = none)
    (hne : newPid ≠ "")
    (hwsf : mget st.wsToPlayer serverWs = none) :
    (GameRoom.fetch st (some hdr) origin newPid serverWs now).2.2 = 101 ∧
    (GameRoom.fetch st (some hdr) origin newPid serverWs now).2.1 =
      Act.send serverWs (ServerMessage.welcome PROTOCOL_VERSION newPid
        (st.connections.map (fun e => e.2.playerId))) ::
      st.connections.map (fun e => Act.send e.2.webSocket (ServerMessage.peer_joined newPid)) ∧
    newPid ∉ st.connections.map (fun e => e.2.playerId) ∧
    serverWs ∉ sockets st ∧
    (sockets st).Nodup := by
  have hid : ∀ e ∈ st.connections, e.2.playerId = e.1 := fun e he => (hinv.2.2.2 e he).1
  have hnotin : newPid ∉ mkeys st.connections := (mget_eq_none_iff _ _).mp hfresh
  have hb : GameRoom.broadcastActs (admittedState st newPid serverWs now) (some newPid)
      (ServerMessage.peer_joined newPid) =
      st.connections.map (fun e => Act.send e.2.webSocket (ServerMessage.peer_joined newPid)) := by
    show ((mset st.connections newPid (admittedConn st newPid serverWs now)).filter
        (fun e => ! GameRoom.broadcastSkips (some newPid) e.2.playerId)).map
        (fun e => Act.send e.2.webSocket (ServerMessage.peer_joined newPid)) = _
    rw [broadcast_filter_mset st.connections newPid _ hid hne rfl]
    rw [filter_no_skip st.connections newPid hid hnotin]
  have hfetch : GameRoom.fetch st (some hdr) origin newPid serverWs now =
      (admittedState st newPid serverWs now,
       Act.send serverWs (ServerMessage.welcome PROTOCOL_VERSION newPid
         (st.connections.map (fun e => e.2.playerId))) ::
       st.connections.map (fun e => Act.send e.2.webSocket (ServerMessage.peer_joined newPid)),
       101) := by
    rw [← hb]
    unfold GameRoom.fetch
    dsimp only
    rw [if_neg (by
      intro hcase
      rcases hcase with hcase | hcase
      · exact hh1 hcase
      · exact hcase hh2)]
    rw [if_neg (by rw [ho]; exact Bool.false_ne_true)]
    rw [if_neg (by rw [hcap]; exact Bool.false_ne_true)]
    rfl
  refine ⟨by rw [hfetch], by rw [hfetch], ?_, ?_, sockets_nodup hinv⟩
  · intro hmem
    obtain ⟨e, he, heq⟩ := List.mem_map.mp hmem
    exact hnotin ((hid e he ▸ heq) ▸ List.mem_map.mpr ⟨e, he, rfl⟩)
  · intro hmem
    obtain ⟨e, he, heq⟩ := List.mem_map.mp hmem
    have h2 := (hinv.2.2.2 e he).2
    rw [heq, hwsf] at h2
    exact Option.noConfusion h2

/-- Witness for C3: admitting "C" on socket 12 into the two-member demo
room (members "A" and "B") sends the welcome with peers ["A", "B"] and a
`peer_joined "C"` to sockets 10 and 11 only. -/
theorem admission_welcome_spec_witness :
    (GameRoom.fetch demoRoom (some "websocket") none "C" 12 5).2.2 = 101 ∧
    (GameRoom.fetch demoRoom (some "websocket") none "C" 12 5).2.1 =
      Act.send 12 (ServerMessage.welcome PROTOCOL_VERSION "C"
        (demoRoom.connections.map (fun e => e.2.playerId))) ::
      demoRoom.connections.map (fun e => Act.send e.2.webSocket (ServerMessage.peer_joined "C")) ∧
    "C" ∉ demoRoom.connections.map (fun e => e.2.playerId) ∧
    12 ∉ sockets demoRoom ∧
    (sockets demoRoom).Nodup :=
  admission_welcome_spec demoRoom "websocket" none "C" 12 5
    (by decide) (by decide) (by decide) (by decide) (by decide) (by decide)
    (by decide) (by decide)

theorem handleDisconnect_noop {st : RoomState} {ws : WS}
    (hw : mget st.wsToPlayer ws = none) :
    GameRoom.handleDisconnect st ws = (st, []) := by
  unfold GameRoom.handleDisconnect
  rw [hw]

/-- After a disconnect (also a no-op one) the socket is absent from both
registries. -/
theorem unregistered_after_disconnect {st : RoomState} (hinv : RegInv st) (ws : WS) :
    Unregistered (GameRoom.handleDisconnect st ws).1 ws := by
  rcases handleDisconnect_state st ws with ⟨hw, hst⟩ | ⟨pid, hw, hst⟩
  · rw [hst]
    refine ⟨hw, ?_⟩
    intro hmem
    obtain ⟨e, he, heq⟩ := List.mem_map.mp hmem
    have h2 := (hinv.2.2.2 e he).2
    rw [heq, hw] at h2
    exact Option.noConfusion h2
  · rw [hst]
    refine ⟨mget_mdel_self hinv.2.1 ws, ?_⟩
    intro hmem
    obtain ⟨e, he, heq⟩ := List.mem_map.mp hmem
    obtain ⟨hmem2, hne⟩ := mem_mdel_ne hinv.1 he
    have h2 := (hinv.2.2.2 e hmem2).2
    rw [heq, hw] at h2
    exact hne (Option.some.inj h2).symm

/-- C6: disconnect handling is idempotent — an unknown handle is a strict
no-op (no mutation, no message), a second disconnect of the same handle
emits nothing (so the pair produces exactly the first call's single
`peer_left` broadcast); for a registered handle both entries are removed
first and the `peer_left` is broadcast from the already-shrunk registry,
never targeting the departed socket; and no broadcast of any later event
sequence (that does not hand the same socket out again) targets it
either. -/
theorem disconnect_idempotent :
    (∀ (st : RoomState) (ws : WS), mget st.wsToPlayer ws = none →
      GameRoom.handleDisconnect st ws = (st, [])) ∧
    (∀ (st : RoomState) (ws : WS), RegInv st →
      GameRoom.handleDisconnect (GameRoom.handleDisconnect st ws).1 ws =
        ((GameRoom.handleDisconnect st ws).1, [])) ∧
    (∀ (st : RoomState) (ws : WS) (pid : PlayerId), RegInv st →
      mget st.wsToPlayer ws = some pid →
      (GameRoom.handleDisconnect st ws).1.connections = mdel st.connections pid ∧
      (GameRoom.handleDisconnect st ws).1.wsToPlayer = mdel st.wsToPlayer ws ∧
      mget (GameRoom.handleDisconnect st ws).1.wsToPlayer ws = none ∧
      mget (GameRoom.handleDisconnect st ws).1.connections pid = none ∧
      (GameRoom.handleDisconnect st ws).2 =
        GameRoom.broadcastActs (GameRoom.handleDisconnect st ws).1 none
          (ServerMessage.peer_left pid) ∧
      (∀ a ∈ (GameRoom.handleDisconnect st ws).2, Act.target a ≠ ws)) ∧
    (∀ (st : RoomState) (ws : WS) (l : List Step), RegInv st → TraceAvoids ws l →
      ∀ a ∈ (applyTrace (GameRoom.handleDisconnect st ws).1 l).2, Act.target a ≠ ws) := by
  refine ⟨?_, ?_, ?_, ?_⟩
  · intro st ws hw
    exact handleDisconnect_noop hw
  · intro st ws hinv
    exact handleDisconnect_noop (unregistered_after_disconnect hinv ws).1
  · intro st ws pid hinv hw
    have hchar : GameRoom.handleDisconnect st ws =
        ({ st with connections := mdel st.connections pid,
                   wsToPlayer := mdel st.wsToPlayer ws },
         GameRoom.broadcastActs
           { st with connections := mdel st.connections pid,
                     wsToPlayer := mdel st.wsToPlayer ws }
           none (ServerMessage.peer_left pid)) := by
      unfold GameRoom.handleDisconnect
      rw [hw]
    have hu := unregistered_after_disconnect hinv ws
    refine ⟨by rw [hchar], by rw [hchar], hu.1, ?_, by rw [hchar], ?_⟩
    · rw [hchar]
      exact mget_mdel_self hinv.1 pid
    · intro a ha heq
      apply hu.2
      rw [hchar] at ha
      have hmem := broadcastActs_target_mem ha
      rw [hchar]
      show ws ∈ _
      rw [← heq]
      exact hmem
  · intro st ws l hinv hl
    exact applyTrace_avoids_target (unregistered_after_disconnect hinv ws) hl

/-- Witness for C6: disconnecting socket 10 twice in the demo room — the
second call is a strict no-op, and the first call's `peer_left` actions
avoid socket 10. -/
theorem disconnect_idempotent_witness :
    GameRoom.handleDisconnect (GameRoom.handleDisconnect demoRoom 10).1 10 =
      ((GameRoom.handleDisconnect demoRoom 10).1, []) ∧
    (∀ a ∈ (GameRoom.handleDisconnect demoRoom 10).2, Act.target a ≠ 10) :=
  ⟨disconnect_idempotent.2.1 demoRoom 10 (by decide),
   (disconnect_idempotent.2.2.1 demoRoom 10 "A" (by decide) (by decide)).2.2.2.2.2⟩

/-- Under the registry invariant the two maps are literally mutually
consistent: a handle maps to an identity exactly when that identity's
connection entry holds that handle. -/
theorem reginv_lookup_iff {st : RoomState} (hinv : RegInv st) (ws : WS) (p : PlayerId) :
    mget st.wsToPlayer ws = some p ↔
      ∃ c, mget st.connections p = some c ∧ c.webSocket = ws := by
  constructor
  · intro hw
    have h1 := hinv.2.2.1 (ws, p) (mget_some_mem hw)
    simp only at h1
    cases hc : mget st.connections p with
    | none => rw [hc] at h1; simp at h1
    | some c =>
      rw [hc] at h1
      simp only [Option.map_some', Option.some.injEq] at h1
      exact ⟨c, rfl, h1⟩
  · intro ⟨c, hc, hcw⟩
    have h2 := (hinv.2.2.2 (p, c) (mget_some_mem hc)).2
    simp only at h2
    rw [hcw] at h2
    exact h2

/-- C1: along every event sequence whose admissions draw fresh identities
and sockets (as `crypto.randomUUID` and `new WebSocketPair` provide), the
registry invariant is preserved — both maps keyed uniquely and mutually
consistent: a handle maps to identity p exactly when p's entry holds that
handle — and a disconnect leaves no stale entry for the departed
connection in either map. -/
theorem registry_consistency_invariant (st : RoomState) (l : List Step)
    (hinv : RegInv st) (hfresh : FreshAlong st l) :
    RegInv (applyTrace st l).1 ∧
    (∀ (ws : WS) (p : PlayerId),
      mget (applyTrace st l).1.wsToPlayer ws = some p ↔
        ∃ c, mget (applyTrace st l).1.connections p = some c ∧ c.webSocket = ws) ∧
    (∀ (ws : WS) (p : PlayerId), mget st.wsToPlayer ws = some p →
      mget (GameRoom.handleDisconnect st ws).1.wsToPlayer ws = none ∧
      mget (GameRoom.handleDisconnect st ws).1.connections p = none) := by
  have hfin : RegInv (applyTrace st l).1 := reginv_applyTrace hinv hfresh
  refine ⟨hfin, reginv_lookup_iff hfin, ?_⟩
  intro ws p hw
  rcases handleDisconnect_state st ws with ⟨hnone, _⟩ | ⟨pid, hw2, hst⟩
  · rw [hnone] at hw
    exact Option.noConfusion hw
  · have hpid : pid = p := Option.some.inj (hw2 ▸ hw)
    subst hpid
    rw [hst]
    exact ⟨mget_mdel_self hinv.2.1 ws, mget_mdel_self hinv.1 pid⟩

/-- A demonstration event sequence: two admissions, a relayed message, a
ping, and a disconnect. -/
def demoTrace : List Step :=
  [Step.join (some "websocket") none "A" 10 0,
   Step.join (some "websocket") none "B" 11 1,
   Step.message 10 moveMsg 2,
   Step.message 11 (JSValue.obj [("type", JSValue.str "ping"), ("nonce", JSValue.str "n1")]) 3,
   Step.disconnect 10]

/-- The empty room the demonstration trace starts from. -/
def emptyRoom : RoomState := GameRoom.init demoEnv [] 0

/-- Witness for C1: the invariant and the stale-entry-free disconnect,
evaluated over the demonstration trace from the empty room. -/
theorem registry_consistency_invariant_witness :
    RegInv (applyTrace emptyRoom demoTrace).1 ∧
    (∀ (ws : WS) (p : PlayerId),
      mget (applyTrace emptyRoom demoTrace).1.wsToPlayer ws = some p ↔
        ∃ c, mget (applyTrace emptyRoom demoTrace).1.connections p = some c ∧
          c.webSocket = ws) ∧
    (∀ (ws : WS) (p : PlayerId), mget emptyRoom.wsToPlayer ws = some p →
      mget (GameRoom.handleDisconnect emptyRoom ws).1.wsToPlayer ws = none ∧
      mget (GameRoom.handleDisconnect emptyRoom ws).1.connections p = none) :=
  registry_consistency_invariant emptyRoom demoTrace (by decide) (by decide)

/-- The identity an attachment registers, if any: `attachment?.playerId`
must be truthy (non-null, non-empty). -/
def truthyPid (att : Option PlayerId) : Option PlayerId :=
  match att with
  | some p => if p = "" then none else some p
  | none => none

/-- The identities the retained sockets would register, in order. -/
def truthyPids (l : List (WS × Option PlayerId)) : List PlayerId :=
  l.filterMap (fun e => truthyPid e.2)

/-- The connection entry hibernation restore rebuilds. -/
def restoredConn (base : RoomState) (w : WS) (p : PlayerId) (now : ℤ) : PlayerConnection :=
  { playerId := p, webSocket := w,
    rateLimiter := RateLimiter.create base.maxMessagesPerSecond, joinedAt := now }

/-- The state after hibernation restore registered one socket. -/
def restoredState (base : RoomState) (w : WS) (p : PlayerId) (now : ℤ) : RoomState :=
  { base with connections := mset base.connections p (restoredConn base w p now),
              wsToPlayer := mset base.wsToPlayer w p }

theorem truthyPid_some {att : Option PlayerId} {p : PlayerId}
    (h : truthyPid att = some p) : att = some p ∧ p ≠ "" := by
  cases att with
  | none => exact Option.noConfusion h
  | some q =>
    simp only [truthyPid] at h
    by_cases hq : q = ""
    · rw [if_pos hq] at h
      exact Option.noConfusion h
    · rw [if_neg hq] at h
      have hqp : q = p := Option.some.inj h
      subst hqp
      exact ⟨rfl, hq⟩

theorem restoreOne_skip {now : ℤ} {base : RoomState} {e : WS × Option PlayerId}
    (h : truthyPid e.2 = none) : GameRoom.restoreOne now base e = base := by
  unfold GameRoom.restoreOne
  cases he : e.2 with
  | none => rfl
  | some p =>
    rw [he] at h
    simp only [truthyPid] at h
    dsimp only
    by_cases hp : p = ""
    · rw [if_pos hp]
    · rw [if_neg hp] at h
      exact Option.noConfusion h

theorem restoreOne_register {now : ℤ} {base : RoomState} {e : WS × Option PlayerId}
    {p : PlayerId} (hp : e.2 = some p) (hpne : p ≠ "") :
    GameRoom.restoreOne now base e = restoredState base e.1 p now := by
  unfold GameRoom.restoreOne
  rw [hp]
  dsimp only
  rw [if_neg hpne]
  rfl

theorem restoreOne_cfg (now : ℤ) (base : RoomState) (e : WS × Option PlayerId) :
    (GameRoom.restoreOne now base e).maxMessagesPerSecond = base.maxMessagesPerSecond := by
  cases ht : truthyPid e.2 with
  | none => rw [restoreOne_skip ht]
  | some p =>
    obtain ⟨hp, hpne⟩ := truthyPid_some ht
    rw [restoreOne_register hp hpne]
    rfl

theorem restore_fields (now : ℤ) (l : List (WS × Option PlayerId)) (base : RoomState) :
    (l.foldl (GameRoom.restoreOne now) base).maxMessagesPerSecond =
      base.maxMessagesPerSecond := by
  induction l generalizing base with
  | nil => rfl
  | cons e rest ih =>
    rw [List.foldl_cons, ih (GameRoom.restoreOne now base e)]
    exact restoreOne_cfg now base e

theorem restore_mget_ws (now : ℤ) (l : List (WS × Option PlayerId)) (base : RoomState)
    {w : WS} (h : w ∉ l.map Prod.fst) :
    mget (l.foldl (GameRoom.restoreOne now) base).wsToPlayer w =
      mget base.wsToPlayer w := by
  induction l generalizing base with
  | nil => rfl
  | cons e rest ih =>
    have hsplit : w ≠ e.1 ∧ w ∉ rest.map Prod.fst := by
      rw [List.map_cons, List.mem_cons] at h
      push_neg at h
      exact h
    rw [List.foldl_cons, ih (GameRoom.restoreOne now base e) hsplit.2]
    cases ht : truthyPid e.2 with
    | none => rw [restoreOne_skip ht]
    | some p =>
      obtain ⟨hp, hpne⟩ := truthyPid_some ht
      rw [restoreOne_register hp hpne]
      exact mget_mset_ne _ _ _ _ hsplit.1

theorem restore_mget_pid (now : ℤ) (l : List (WS × Option PlayerId)) (base : RoomState)
    {p : PlayerId} (h : p ∉ truthyPids l) :
    mget (l.foldl (GameRoom.restoreOne now) base).connections p =
      mget base.connections p := by
  induction l generalizing base with
  | nil => rfl
  | cons e rest ih =>
    rw [List.foldl_cons]
    cases ht : truthyPid e.2 with
    | none =>
      have hrest : p ∉ truthyPids rest := by
        simp only [truthyPids, List.filterMap_cons, ht] at h
        exact h
      rw [ih (GameRoom.restoreOne now base e) hrest, restoreOne_skip ht]
    | some q =>
      have hsplit : p ≠ q ∧ p ∉ truthyPids rest := by
        simp only [truthyPids, List.filterMap_cons, ht, List.mem_cons] at h
        push_neg at h
        exact h
      obtain ⟨hq, hqne⟩ := truthyPid_some ht
      rw [ih (GameRoom.restoreOne now base e) hsplit.2, restoreOne_register hq hqne]
      exact mget_mset_ne _ _ _ _ hsplit.1

theorem restore_sockets (now : ℤ) (l : List (WS × Option PlayerId)) (base : RoomState)
    {w : WS} (h : w ∈ sockets (l.foldl (GameRoom.restoreOne now) base)) :
    w ∈ sockets base ∨ w ∈ l.map Prod.fst := by
  induction l generalizing base with
  | nil => left; exact h
  | cons e rest ih =>
    rw [List.foldl_cons] at h
    rcases ih (GameRoom.restoreOne now base e) h with h' | h'
    · cases ht : truthyPid e.2 with
      | none =>
        rw [restoreOne_skip ht] at h'
        left; exact h'
      | some q =>
        obtain ⟨hq, hqne⟩ := truthyPid_some ht
        rw [restoreOne_register hq hqne] at h'
        obtain ⟨f, hf, heq⟩ := List.mem_map.mp h'
        rcases mem_mset hf with rfl | hf'
        · right
          rw [List.map_cons, List.mem_cons]
          left
          exact heq.symm
        · left
          exact List.mem_map.mpr ⟨f, hf', heq⟩
    · right
      rw [List.map_cons, List.mem_cons]
      right
      exact h'

theorem restore_registers (now : ℤ) (l : List (WS × Option PlayerId)) (base : RoomState)
    (hkeys : (l.map Prod.fst).Nodup) (hpids : (truthyPids l).Nodup) :
    ∀ e ∈ l, ∀ p, e.2 = some p → p ≠ "" →
      mget (l.foldl (GameRoom.restoreOne now) base).wsToPlayer e.1 = some p ∧
      mget (l.foldl (GameRoom.restoreOne now) base).connections p =
        some (restoredConn base e.1 p now) := by
  induction l generalizing base with
  | nil => intro e he; simp at he
  | cons e0 rest ih =>
    intro e he p hp hpne
    have ht0 : truthyPid e.2 = some p := by
      rw [hp]
      simp only [truthyPid]
      rw [if_neg hpne]
    have hkr : (rest.map Prod.fst).Nodup := (List.nodup_cons.mp (by
      rw [List.map_cons] at hkeys; exact hkeys)).2
    rcases List.mem_cons.mp he with rfl | he'
    · rw [List.foldl_cons, restoreOne_register hp hpne]
      have hwnot : e.1 ∉ rest.map Prod.fst := (List.nodup_cons.mp (by
        rw [List.map_cons] at hkeys; exact hkeys)).1
      have hpnot : p ∉ truthyPids rest := by
        have : truthyPids (e :: rest) = p :: truthyPids rest := by
          simp only [truthyPids, List.filterMap_cons, ht0]
        rw [this] at hpids
        exact (List.nodup_cons.mp hpids).1
      constructor
      · rw [restore_mget_ws now rest (restoredState base e.1 p now) hwnot]
        exact mget_mset_self _ _ _
      · rw [restore_mget_pid now rest (restoredState base e.1 p now) hpnot]
        exact mget_mset_self _ _ _
    · have hpidsr : (truthyPids rest).Nodup := by
        cases ht1 : truthyPid e0.2 with
        | none =>
          have : truthyPids (e0 :: rest) = truthyPids rest := by
            simp only [truthyPids, List.filterMap_cons, ht1]
          rwa [this] at hpids
        | some q =>
          have : truthyPids (e0 :: rest) = q :: truthyPids rest := by
            simp only [truthyPids, List.filterMap_cons, ht1]
          rw [this] at hpids
          exact (List.nodup_cons.mp hpids).2
      rw [List.foldl_cons]
      obtain ⟨hws, hpid⟩ := ih (GameRoom.restoreOne now base e0) hkr hpidsr e he' p hp hpne
      refine ⟨hws, ?_⟩
      rw [hpid]
      unfold restoredConn
      rw [restoreOne_cfg now base e0]

theorem restore_skipped (now : ℤ) (l : List (WS × Option PlayerId)) (base : RoomState)
    (hkeys : (l.map Prod.fst).Nodup) :
    ∀ e ∈ l, truthyPid e.2 = none →
      mget base.wsToPlayer e.1 = none → e.1 ∉ sockets base →
      mget (l.foldl (GameRoom.restoreOne now) base).wsToPlayer e.1 = none ∧
      e.1 ∉ sockets (l.foldl (GameRoom.restoreOne now) base) := by
  induction l generalizing base with
  | nil => intro e he; simp at he
  | cons e0 rest ih =>
    intro e he htruthy hw0 hs0
    have hkr : (rest.map Prod.fst).Nodup := (List.nodup_cons.mp (by
      rw [List.map_cons] at hkeys; exact hkeys)).2
    rcases List.mem_cons.mp he with rfl | he'
    · rw [List.foldl_cons, restoreOne_skip htruthy]
      have hwnot : e.1 ∉ rest.map Prod.fst := (List.nodup_cons.mp (by
        rw [List.map_cons] at hkeys; exact hkeys)).1
      constructor
      · rw [restore_mget_ws now rest base hwnot]
        exact hw0
      · intro hmem
        rcases restore_sockets now rest base hmem with hmem' | hmem'
        · exact hs0 hmem'
        · exact hwnot hmem'
    · have hne : e0.1 ≠ e.1 := by
        intro hh
        have hmem : e0.1 ∈ rest.map Prod.fst := by
          rw [hh]
          exact List.mem_map.mpr ⟨e, he', rfl⟩
        exact (List.nodup_cons.mp (by rw [List.map_cons] at hkeys; exact hkeys)).1 hmem
      rw [List.foldl_cons]
      have hw1 : mget (GameRoom.restoreOne now base e0).wsToPlayer e.1 = none := by
        cases ht : truthyPid e0.2 with
        | none => rw [restoreOne_skip ht]; exact hw0
        | some q =>
          obtain ⟨hq, hqne⟩ := truthyPid_some ht
          rw [restoreOne_register hq hqne]
          show mget (mset base.wsToPlayer e0.1 q) e.1 = none
          rw [mget_mset_ne _ _ _ _ (fun hh => hne hh.symm)]
          exact hw0
      have hs1 : e.1 ∉ sockets (GameRoom.restoreOne now base e0) := by
        cases ht : truthyPid e0.2 with
        | none => rw [restoreOne_skip ht]; exact hs0
        | some q =>
          obtain ⟨hq, hqne⟩ := truthyPid_some ht
          rw [restoreOne_register hq hqne]
          intro hmem
          obtain ⟨f, hf, heq⟩ := List.mem_map.mp hmem
          rcases mem_mset hf with rfl | hf'
          · exact hne heq
          · exact hs0 (List.mem_map.mpr ⟨f, hf', heq⟩)
      exact ih (GameRoom.restoreOne now base e0) hkr e he' htruthy hw1 hs1

/-- C10: hibernation restore re-registers a retained WebSocket in both
registry maps, under its attached identity and with a fresh empty-window
`RateLimiter`, exactly when its deserialized attachment carries a truthy
`playerId`; a socket restored without one is left out of both maps, every
frame it later sends is silently dropped (no reply, no relay, no state
change), and broadcasts only ever target registered sockets, so it is
never targeted. -/
theorem hibernation_restore_spec (env : EnvConfig)
    (retained : List (WS × Option PlayerId)) (now : ℤ)
    (hkeys : (retained.map Prod.fst).Nodup)
    (hpids : (truthyPids retained).Nodup) :
    (∀ e ∈ retained, ∀ p, e.2 = some p → p ≠ "" →
      mget (GameRoom.init env retained now).wsToPlayer e.1 = some p ∧
      mget (GameRoom.init env retained now).connections p =
        some { playerId := p, webSocket := e.1,
               rateLimiter := RateLimiter.create
                 (GameRoom.init env retained now).maxMessagesPerSecond,
               joinedAt := now }) ∧
    (∀ e ∈ retained, truthyPid e.2 = none →
      Unregistered (GameRoom.init env retained now) e.1) ∧
    (∀ (st : RoomState) (ws : WS) (v : JSValue) (t : ℤ),
      mget st.wsToPlayer ws = none →
      GameRoom.webSocketMessage st ws v t = (st, [])) ∧
    (∀ (st : RoomState) (excl : Option PlayerId) (msg : ServerMessage),
      ∀ a ∈ GameRoom.broadcastActs st excl msg, Act.target a ∈ sockets st) := by
  have hreg := restore_registers now retained
    { connections := [], wsToPlayer := [],
      allowedOrigins := GameRoom.parseAllowedOrigins env.ALLOWED_ORIGINS,
      maxMessagesPerSecond := jsMax1 (jsEnvNumber env.MAX_MESSAGES_PER_SECOND 60),
      maxPlayersPerRoom := jsMax1 (jsEnvNumber env.MAX_PLAYERS_PER_ROOM 20) }
    hkeys hpids
  have hskip := restore_skipped now retained
    { connections := [], wsToPlayer := [],
      allowedOrigins := GameRoom.parseAllowedOrigins env.ALLOWED_ORIGINS,
      maxMessagesPerSecond := jsMax1 (jsEnvNumber env.MAX_MESSAGES_PER_SECOND 60),
      maxPlayersPerRoom := jsMax1 (jsEnvNumber env.MAX_PLAYERS_PER_ROOM 20) }
    hkeys
  have hcfg := restore_fields now retained
    { connections := [], wsToPlayer := [],
      allowedOrigins := GameRoom.parseAllowedOrigins env.ALLOWED_ORIGINS,
      maxMessagesPerSecond := jsMax1 (jsEnvNumber env.MAX_MESSAGES_PER_SECOND 60),
      maxPlayersPerRoom := jsMax1 (jsEnvNumber env.MAX_PLAYERS_PER_ROOM 20) }
  refine ⟨?_, ?_, ?_, ?_⟩
  · intro e he p hp hpne
    obtain ⟨hws, hpid⟩ := hreg e he p hp hpne
    refine ⟨hws, ?_⟩
    have hcfg2 : (GameRoom.init env retained now).maxMessagesPerSecond =
        jsMax1 (jsEnvNumber env.MAX_MESSAGES_PER_SECOND 60) := hcfg
    rw [hcfg2]
    exact hpid
  · intro e he ht
    exact hskip e he ht rfl (by intro hmem; simp [sockets] at hmem)
  · intro st ws v t hw
    exact webSocketMessage_unregistered hw v t
  · intro st excl msg a ha
    exact broadcastActs_target_mem ha

/-- Retained sockets for the restore demonstration: one with a truthy
attachment, one with a null attachment, one with an empty identity. -/
def restoreDemo : List (WS × Option PlayerId) :=
  [(1, some "p1"), (2, none), (3, some "")]

/-- Witness for C10: socket 1 (truthy attachment) is in both maps with a
fresh limiter; sockets 2 and 3 are in neither. -/
theorem hibernation_restore_spec_witness :
    (mget (GameRoom.init demoEnv restoreDemo 0).wsToPlayer 1 = some "p1" ∧
     mget (GameRoom.init demoEnv restoreDemo 0).connections "p1" =
       some { playerId := "p1", webSocket := 1,
              rateLimiter := RateLimiter.create
                (GameRoom.init demoEnv restoreDemo 0).maxMessagesPerSecond,
              joinedAt := 0 }) ∧
    Unregistered (GameRoom.init demoEnv restoreDemo 0) 2 ∧
    Unregistered (GameRoom.init demoEnv restoreDemo 0) 3 :=
  ⟨(hibernation_restore_spec demoEnv restoreDemo 0 (by decide) (by decide)).1
      (1, some "p1") (by decide) "p1" rfl (by decide),
   (hibernation_restore_spec demoEnv restoreDemo 0 (by decide) (by decide)).2.1
      (2, none) (by decide) rfl,
   (hibernation_restore_spec demoEnv restoreDemo 0 (by decide) (by decide)).2.1
      (3, some "") (by decide) rfl⟩
